import Mathlib

/-!
Verification of the BarrilesYA storefront pricing and cart logic.

This file gives a shallow embedding, in Lean, of the pricing engine, the
automatic-discount recomputation, the combo auto-bundler and the cart-store
operations of the application (the second app module of `src/unnamed/part_001`,
together with the catalog data of `src/unnamed/part_000` and the record types
of `src/types.ts`), and proves or refutes the specified properties.

Modelling conventions:
* JavaScript numbers are modelled as `ℚ` for monetary values and percentages
  and as `ℤ` for quantities, thresholds and unit counts; a possibly
  missing/`NaN` quantity is `Option ℤ` (`none` standing for
  `undefined`/`null`/`NaN`), and the JS coercion `Number(x || d)` is `jsOr`.
* Line timestamps (`Date.now()` values) are natural numbers; the fractional
  "virtual timestamp" `timestamp + i * 0.01` that the bundler synthesises is
  modelled as the pair `(timestamp, i)`, with `Math.floor` recovering the
  first component.  This is exact for integral millisecond timestamps and
  token indices below one hundred; `100 * 0.01` is exactly `1.0` in doubles,
  so a source token with index one hundred or more aliases into the next
  millisecond, and statements that depend on the floor bookkeeping carry a
  per-line token bound of one hundred as an explicit hypothesis.
* JS `Record`/`Map` objects are insertion-ordered association lists, with
  key update happening in place and new keys appended, exactly as JS
  enumeration order behaves.
* `Array.prototype.sort` (a stable sort in ECMAScript) is modelled by a
  stable insertion sort parameterised by the boolean comparator.
* Display-only record fields (descriptions, image URLs, yield texts) carry no
  program logic and are omitted from the embedded records.
* `Intl.NumberFormat` currency rendering is an external library facility; the
  order-message formatter is therefore parameterised over the currency
  formatting function `fmt : ℚ → String`.
-/

namespace BarrilesYA

/-! ### String utilities (JS `String.prototype.includes`, default sort order) -/

/-- Does the first list start with the second one? -/
def listStarts : List Char → List Char → Bool
  | _, [] => true
  | [], _ :: _ => false
  | a :: as, b :: bs => a == b && listStarts as bs

/-- Does `s` contain `sub` as a contiguous run? -/
def listHasInfix (s sub : List Char) : Bool :=
  match s with
  | [] => listStarts [] sub
  | _ :: rest => listStarts s sub || listHasInfix rest sub

/-- JS `s.includes(sub)`. -/
def strIncludes (s sub : String) : Bool := listHasInfix s.data sub.data

/-- Code-unit comparison used by the default JS string sort. -/
def strLtB : List Char → List Char → Bool
  | [], [] => false
  | [], _ :: _ => true
  | _ :: _, [] => false
  | a :: as, b :: bs =>
    if a.val < b.val then true
    else if b.val < a.val then false
    else strLtB as bs

/-- JS default string comparator as a `≤`-style boolean relation. -/
def strLeB (a b : String) : Bool := !strLtB b.data a.data

/-! ### Stable sorting (model of `Array.prototype.sort`) -/

/-- Insert `a` into a sorted list, before the first element it compares
`le`-true against; this makes the overall sort stable. -/
def insertSorted (le : α → α → Bool) (a : α) : List α → List α
  | [] => [a]
  | b :: bs => if le a b then a :: b :: bs else b :: insertSorted le a bs

/-- Stable insertion sort by a boolean comparator. -/
def sortByB (le : α → α → Bool) : List α → List α
  | [] => []
  | a :: as => insertSorted le a (sortByB le as)

/-! ### Data model (from `src/types.ts`) -/

/-- The `type` tag of a product: `'individual' | 'combo'`. -/
inductive PType where
  | individual
  | combo
deriving Repr, DecidableEq

/-- One discount tier `{ quantity; percentage }`. -/
structure DiscountTier where
  quantity : ℤ
  percentage : ℚ
deriving Repr, DecidableEq

/-- A purchasable kit (display-only fields omitted). -/
structure Kit where
  id : String
  name : String
  hasExtraBarrelSelector : Bool
  price : ℚ
  pricePerExtraBarrel : Option ℚ
deriving Repr, DecidableEq

/-- A sellable product (display-only fields omitted). -/
structure Product where
  id : String
  name : String
  kits : List Kit
  discountTiers : Option (List DiscountTier)
  type : Option PType
  comboComponents : Option (List String)
deriving Repr, DecidableEq

/-- A cart line.  `quantity` is `Option ℤ`: `none` models a missing or
malformed (`undefined`/`NaN`) stored quantity. -/
structure CartItem where
  product : Product
  kit : Kit
  quantity : Option ℤ
  timestamp : ℕ
deriving Repr, DecidableEq

/-- JS `Number(x || d)` on a quantity field: `undefined`, `null`, `NaN`
and `0` are all falsy and give `d`. -/
def jsOr (x : Option ℤ) (d : ℤ) : ℤ :=
  match x with
  | none => d
  | some n => if n = 0 then d else n

/-- The coerced quantity of a line, `Number(item.quantity || 0)`. -/
def qty (item : CartItem) : ℤ := jsOr item.quantity 0

/-- JS truthiness of an optional numeric field (`undefined` and `0` falsy). -/
def truthyQ (x : Option ℚ) : Bool :=
  match x with
  | none => false
  | some v => decide (v ≠ 0)

/-! ### Pricing engine (helper functions of `part_001`, lines 1048–1079) -/

/-- Model of `smartRoundToMarketingPrice`: non-positive prices map to `0`;
otherwise round up to the next multiple of one thousand and subtract ten. -/
def smartRoundToMarketingPrice (price : ℚ) : ℚ :=
  if price ≤ 0 then 0
  else (⌈price / 1000⌉ : ℚ) * 1000 - 10

/-- Model of `calculateItemTotal`: extra-barrel kits (flag set and a truthy
per-extra-barrel price) cost base price plus quantity extra barrels;
all other kits cost price times quantity. -/
def calculateItemTotal (item : CartItem) : ℚ :=
  let quantity : ℚ := (qty item : ℚ)
  let price : ℚ := item.kit.price
  if item.kit.hasExtraBarrelSelector && truthyQ item.kit.pricePerExtraBarrel then
    let extraBarrelPrice : ℚ := item.kit.pricePerExtraBarrel.getD 0
    price + quantity * extraBarrelPrice
  else
    price * quantity

/-- Model of `getItemBarrelCount`: one base barrel plus the extras for
extra-barrel kits, the plain quantity otherwise. -/
def getItemBarrelCount (item : CartItem) : ℤ :=
  if item.kit.hasExtraBarrelSelector then 1 + qty item else qty item

/-! ### Applicable discount tier (cart discount effect, lines 2079–2082) -/

/-- Descending-by-threshold comparator `(a, b) => b.quantity - a.quantity`. -/
def tierGe (a b : DiscountTier) : Bool := decide (b.quantity ≤ a.quantity)

/-- Model of the `applicableTier` computation: sort the tiers by descending
threshold and take the first whose threshold the count reaches. -/
def findApplicableTier (tiers : List DiscountTier) (count : ℤ) : Option DiscountTier :=
  (sortByB tierGe tiers).find? (fun t => decide (t.quantity ≤ count))

/-! ### Automatic discount recomputation (effect of lines 2059–2093) -/

/-- One entry of the derived `AutomaticDiscounts` map. -/
structure AutomaticDiscount where
  percentage : ℚ
  amount : ℚ
deriving Repr, DecidableEq

/-- Accumulated figures of a per-product group. -/
structure GroupedProduct where
  product : Product
  totalBarrelQuantity : ℤ
  subtotal : ℚ
deriving Repr, DecidableEq

/-- Add one line's barrel count and raw total to a group. -/
def addToGroup (g : GroupedProduct) (item : CartItem) : GroupedProduct :=
  { g with
      totalBarrelQuantity := g.totalBarrelQuantity + getItemBarrelCount item
      subtotal := g.subtotal + calculateItemTotal item }

/-- One step of the JS `reduce` that builds `groupedByProduct`: create the
entry (appended, JS records enumerate in insertion order) if absent, then
accumulate into it. -/
def groupStep (acc : List (String × GroupedProduct)) (item : CartItem) :
    List (String × GroupedProduct) :=
  let pid := item.product.id
  let acc' := if acc.any (fun e => e.1 == pid) then acc
              else acc ++ [(pid, ⟨item.product, 0, 0⟩)]
  acc'.map (fun e => if e.1 == pid then (e.1, addToGroup e.2 item) else e)

/-- Model of `groupedByProduct`. -/
def groupedByProduct (cart : List CartItem) : List (String × GroupedProduct) :=
  cart.foldl groupStep []

/-- The tier list the effect uses: `liveProduct?.discountTiers || []`. -/
def productTiers (allLiveProducts : List Product) (pid : String) : List DiscountTier :=
  ((allLiveProducts.find? (fun p => p.id == pid)).bind (fun p => p.discountTiers)).getD []

/-- Model of the `newDiscounts` record: one entry per grouped product for
which a tier applies. -/
def newDiscounts (allLiveProducts : List Product) (cart : List CartItem) :
    List (String × AutomaticDiscount) :=
  (groupedByProduct cart).filterMap (fun e =>
    match findApplicableTier (productTiers allLiveProducts e.1) e.2.totalBarrelQuantity with
    | some t => some (e.1, ⟨t.percentage, e.2.subtotal * t.percentage / 100⟩)
    | none => none)

/-- Lookup of one product's entry in the derived discount map. -/
def discountFor (allLiveProducts : List Product) (cart : List CartItem) (pid : String) :
    Option AutomaticDiscount :=
  ((newDiscounts allLiveProducts cart).find? (fun e => e.1 == pid)).map (fun e => e.2)

/-- The cart lines sharing a product id (the specification's pooling). -/
def groupLines (cart : List CartItem) (pid : String) : List CartItem :=
  cart.filter (fun item => item.product.id == pid)

/-- Pooled effective unit count of a product's group. -/
def pooledBarrelCount (cart : List CartItem) (pid : String) : ℤ :=
  ((groupLines cart pid).map getItemBarrelCount).sum

/-- Pooled raw subtotal of a product's group. -/
def pooledSubtotal (cart : List CartItem) (pid : String) : ℚ :=
  ((groupLines cart pid).map calculateItemTotal).sum

/-! ### Product-detail displayed price (lines 1412–1437) -/

/-- The `isExtraBarrelKit` test of the product page. -/
def isExtraBarrelKitPD (kit : Kit) : Bool :=
  kit.hasExtraBarrelSelector && truthyQ kit.pricePerExtraBarrel

/-- The quantity the page prices: combos are fixed at one, otherwise the
selector value (already coerced to a number by the page). -/
def displayedQuantity (product : Product) (requested : ℤ) : ℤ :=
  if product.type == some .combo then 1 else requested

/-- `totalBarrels` of the product page. -/
def totalBarrelsPD (product : Product) (kit : Kit) (requested : ℤ) : ℤ :=
  if isExtraBarrelKitPD kit then 1 + displayedQuantity product requested
  else displayedQuantity product requested

/-- `dynamicPrice` of the product page. -/
def dynamicPricePD (product : Product) (kit : Kit) (requested : ℤ) : ℚ :=
  if isExtraBarrelKitPD kit then
    kit.price + (displayedQuantity product requested : ℚ) * kit.pricePerExtraBarrel.getD 0
  else
    kit.price * (displayedQuantity product requested : ℚ)

/-- `applicableTier` of the product page: reverse the declared tiers and take
the first whose threshold the barrel count reaches. -/
def applicableTierPD (product : Product) (kit : Kit) (requested : ℤ) : Option DiscountTier :=
  (product.discountTiers.getD []).reverse.find?
    (fun t => decide (t.quantity ≤ totalBarrelsPD product kit requested))

/-- The page's price after the tier discount, before any rounding. -/
def discountedPricePD (product : Product) (kit : Kit) (requested : ℤ) : ℚ :=
  match applicableTierPD product kit requested with
  | some t => dynamicPricePD product kit requested * (1 - t.percentage / 100)
  | none => dynamicPricePD product kit requested

/-- Model of `finalPrice`: marketing rounding applies only to a combo with an
applicable tier. -/
def finalPricePD (product : Product) (kit : Kit) (requested : ℤ) : ℚ :=
  if product.type == some .combo && (applicableTierPD product kit requested).isSome then
    smartRoundToMarketingPrice (discountedPricePD product kit requested)
  else
    discountedPricePD product kit requested

/-! ### Order message formatter (lines 1081–1114) -/

/-- JS template interpolation of the raw quantity field. -/
def optQtyToStr (q : Option ℤ) : String :=
  match q with
  | some n => toString n
  | none => "undefined"

/-- The per-line description built by `generateOrderMessage`. -/
def itemDetails (item : CartItem) : String :=
  let base := item.kit.name ++ " de " ++ item.product.name
  if item.product.type == some .combo then base
  else if item.kit.hasExtraBarrelSelector then
    let recambioCount := jsOr item.quantity 1
    if 0 < recambioCount then
      base ++ " (con " ++ toString recambioCount ++ " barril" ++
        (if 1 < recambioCount then "es" else "") ++ " de recambio)"
    else base
  else
    base ++ " (x" ++ optQtyToStr item.quantity ++ ")"

/-- One bullet line of the order message. -/
def itemLine (fmt : ℚ → String) (item : CartItem) : String :=
  "• " ++ itemDetails item ++ " - " ++ fmt (calculateItemTotal item)

/-- The `reduce` computing the cart subtotal. -/
def cartSubtotal (cart : List CartItem) : ℚ :=
  cart.foldl (fun s item => s + calculateItemTotal item) 0

/-- The `reduce` over `Object.values(discounts)` summing discount amounts. -/
def totalDiscountAmount (discounts : List (String × AutomaticDiscount)) : ℚ :=
  discounts.foldl (fun s e => s + e.2.amount) 0

/-- Model of `generateOrderMessage`, parameterised over the currency
formatter. -/
def generateOrderMessage (fmt : ℚ → String) (cart : List CartItem)
    (discounts : List (String × AutomaticDiscount)) : String :=
  if cart.length = 0 then "Mi pedido está vacío."
  else
    let header := "*¡Hola! Quisiera hacer el siguiente pedido:*\n\n"
    let subtotal := cartSubtotal cart
    let items := String.intercalate "\n" (cart.map (itemLine fmt))
    let footer :=
      if 0 < discounts.length then
        let tda := totalDiscountAmount discounts
        "\n\n*Subtotal:* " ++ fmt subtotal ++ "\n*Ahorro por cantidad:* -" ++ fmt tda ++
          "\n\n*Total Final: " ++ fmt (subtotal - tda) ++ "*\n\n¡Muchas gracias!"
      else
        "\n\n*Total estimado: " ++ fmt subtotal ++ "*\n\n¡Muchas gracias!"
    header ++ items ++ footer

/-! ### Cart store operations (lines 2182–2236, call sites 1643–1653) -/

/-- Model of `handleUpdateCartQuantity`: overwrite the quantity of every line
carrying the given timestamp; no clamping happens here. -/
def handleUpdateCartQuantity (cart : List CartItem) (timestamp : ℕ)
    (newQuantity : Option ℤ) : List CartItem :=
  cart.map (fun item =>
    if item.timestamp == timestamp then { item with quantity := newQuantity } else item)

/-- The user feedback message raised by `handleAddToCart`. -/
inductive AddFeedback where
  | comboAlready
  | comboAdded
  | added
deriving Repr, DecidableEq

/-- Model of `handleAddToCart` (the cart rewrite and the feedback raised;
animation concerns omitted).  `now` stands for `Date.now()`.  The sum
`existingItem.quantity + quantity` is performed on the raw stored field, so a
malformed stored quantity (`none`, JS `NaN`) propagates. -/
def handleAddToCart (cart : List CartItem) (product : Product) (kit : Kit)
    (quantity : ℤ) (now : ℕ) : List CartItem × AddFeedback :=
  let existingItem := cart.find? (fun item => item.kit.id == kit.id)
  if product.type == some .combo then
    match existingItem with
    | some _ => (cart, .comboAlready)
    | none => (cart ++ [⟨product, kit, some 1, now⟩], .comboAdded)
  else
    match existingItem with
    | some existing =>
      (handleUpdateCartQuantity cart existing.timestamp (existing.quantity.map (· + quantity)),
       .added)
    | none => (cart ++ [⟨product, kit, some quantity, now⟩], .added)

/-- The value the cart screen's decrement button requests:
`Math.max(1, Number(item.quantity || 1) - 1)`. -/
def cartDecrementRequest (item : CartItem) : ℤ := max 1 (jsOr item.quantity 1 - 1)

/-- The value the cart screen's increment button requests:
`Math.min(5, Number(item.quantity || 0) + 1)`. -/
def cartIncrementRequest (item : CartItem) : ℤ := min 5 (jsOr item.quantity 0 + 1)

/-- A quantity update issued through the cart screen's decrement control. -/
def cartScreenDecrement (cart : List CartItem) (timestamp : ℕ) : List CartItem :=
  match cart.find? (fun item => item.timestamp == timestamp) with
  | some item => handleUpdateCartQuantity cart timestamp (some (cartDecrementRequest item))
  | none => cart

/-- A quantity update issued through the cart screen's increment control. -/
def cartScreenIncrement (cart : List CartItem) (timestamp : ℕ) : List CartItem :=
  match cart.find? (fun item => item.timestamp == timestamp) with
  | some item => handleUpdateCartQuantity cart timestamp (some (cartIncrementRequest item))
  | none => cart

/-! ### Combo auto-bundler (effect of lines 2095–2175) -/

/-- An abstract available-unit token.  The JS code encodes it as the float
`item.timestamp + i * 0.01` and recovers the line by `Math.floor`; the pair
`(timestamp, i)` is the exact content of that encoding. -/
abbrev VToken := ℕ × ℕ

/-- JS `ToLength` of the stored quantity, as used by
`Array.from({ length: item.quantity })` (`NaN` and negatives give zero). -/
def tokenCount (q : Option ℤ) : ℕ :=
  match q with
  | some n => n.toNat
  | none => 0

/-- Lookup in an insertion-ordered map. -/
def mapGet (m : List (String × α)) (k : String) : Option α :=
  (m.find? (fun e => e.1 == k)).map (fun e => e.2)

/-- JS `Map.set`: overwrite in place when the key exists, append otherwise. -/
def mapSet (m : List (String × α)) (k : String) (v : α) : List (String × α) :=
  if m.any (fun e => e.1 == k) then
    m.map (fun e => if e.1 == k then (k, v) else e)
  else m ++ [(k, v)]

/-- The lines contributing to the `availableKits` table: individual-type
product, kit id containing `"kit-completo"`. -/
def poolLine (item : CartItem) : Bool :=
  item.product.type == some .individual && strIncludes item.kit.id "kit-completo"

/-- The virtual tokens one line expands into.  The pair `(timestamp, i)`
renders the JS float `item.timestamp + i * 0.01` exactly as long as the token
index `i` stays below one hundred (`100 * 0.01` is exactly `1.0` in doubles,
so in the source a token with `i ≥ 100` aliases into the next millisecond);
the idempotence theorem therefore carries a per-line bound
`tokenCount item.quantity ≤ 100` as an explicit hypothesis. -/
def lineTokens (item : CartItem) : List VToken :=
  (List.range (tokenCount item.quantity)).map (fun i => (item.timestamp, i))

/-- Model of the `availableKits` table: every individual-type line whose kit
id contains `"kit-completo"` sets (and possibly overwrites) its product's
token pool. -/
def buildAvailableKits (cart : List CartItem) : List (String × List VToken) :=
  cart.foldl (fun m item =>
    if poolLine item then mapSet m item.product.id (lineTokens item) else m) []

/-- The filter keeping bundleable combo definitions. -/
def comboFilter (p : Product) : Bool :=
  p.type == some .combo && decide (0 < (p.comboComponents.getD []).length)

/-- Descending-by-component-count comparator of the combo sort. -/
def comboGe (a b : Product) : Bool :=
  decide ((b.comboComponents.getD []).length ≤ (a.comboComponents.getD []).length)

/-- Model of `sortedCombos`. -/
def sortedCombos (allLiveProducts : List Product) : List Product :=
  sortByB comboGe (allLiveProducts.filter comboFilter)

/-- The first still-unconsumed token of a component's pool. -/
def findTokenFor (avail : List (String × List VToken)) (consumed : List VToken)
    (compId : String) : Option VToken :=
  ((mapGet avail compId).getD []).find? (fun t => !consumed.contains t)

/-- Collect one token per required component, all chosen against the same
`consumed` set (the JS inner `for` loop fills `foundTimestamps` before any
token is marked consumed). -/
def collectTokens (avail : List (String × List VToken)) (consumed : List VToken) :
    List String → Option (List VToken)
  | [] => some []
  | c :: cs =>
    match findTokenFor avail consumed c with
    | some t => (collectTokens avail consumed cs).map (fun ts => t :: ts)
    | none => none

/-- JS `Set.add` on the consumed-token set. -/
def addToken (s : List VToken) (t : VToken) : List VToken :=
  if s.contains t then s else s ++ [t]

/-- The mutable state of the bundling scan. -/
structure BundlerState where
  consumed : List VToken
  combosToAdd : List CartItem
deriving Repr, DecidableEq

/-- The combo's own complete-kit variant. -/
def comboKitOf (comboDef : Product) : Option Kit :=
  comboDef.kits.find? (fun k => strIncludes k.id "kit-completo")

/-- One `while (true)` loop of the bundler, with fuel (the loop consumes at
least one fresh token per iteration, so any fuel above the pool size reaches
the loop's own exit condition).  `freshTs` supplies the
`Date.now() + Math.random()` timestamps of created combo lines. -/
def comboLoop (avail : List (String × List VToken)) (comboDef : Product)
    (freshTs : ℕ → ℕ) : ℕ → BundlerState → BundlerState
  | 0, st => st
  | fuel + 1, st =>
    match collectTokens avail st.consumed (comboDef.comboComponents.getD []) with
    | none => st
    | some found =>
      let consumed' := found.foldl addToken st.consumed
      let adds :=
        match comboKitOf comboDef with
        | some comboKit => [⟨comboDef, comboKit, some 1, freshTs st.combosToAdd.length⟩]
        | none => []
      comboLoop avail comboDef freshTs fuel ⟨consumed', st.combosToAdd ++ adds⟩

/-- Total number of pooled tokens. -/
def totalTokens (avail : List (String × List VToken)) : ℕ :=
  (avail.map (fun e => e.2.length)).sum

/-- Process every combo definition in order. -/
def runCombos (avail : List (String × List VToken)) (freshTs : ℕ → ℕ) :
    List Product → BundlerState → BundlerState
  | [], st => st
  | c :: cs, st =>
    runCombos avail freshTs cs (comboLoop avail c freshTs (totalTokens avail + 1) st)

/-- `consumedOriginalItems.get(ts)`: how many consumed tokens floor back to
the line timestamp `ts`.  Taking the pair's first component as the floor is
exact on pools of at most one hundred tokens; in the source a token with
index one hundred or more floors to `timestamp + 1` instead and is never
credited back to its line. -/
def consumedOriginalCount (consumed : List VToken) (ts : ℕ) : ℕ :=
  (consumed.filter (fun t => t.1 == ts)).length

/-- The per-line quantity reduction of the rebuild (`if (consumedCount)` is a
truthiness test, and the subtraction happens on the raw stored field). -/
def reduceItem (consumed : List VToken) (item : CartItem) : CartItem :=
  let c := consumedOriginalCount consumed item.timestamp
  if c ≠ 0 then { item with quantity := item.quantity.map (fun q => q - (c : ℤ)) } else item

/-- The rebuild's `item.quantity > 0` filter (false for a malformed stored
quantity, since `NaN > 0` is false). -/
def keepItem (item : CartItem) : Bool :=
  match item.quantity with
  | some q => decide (0 < q)
  | none => false

/-- The rebuilt cart: reduced original lines, zero-or-less lines dropped, new
combo lines appended. -/
def rebuildCart (cart : List CartItem) (st : BundlerState) : List CartItem :=
  ((cart.map (reduceItem st.consumed)).filter keepItem) ++ st.combosToAdd

/-- The canonical signature string of one line. -/
def lineSig (item : CartItem) : String := item.kit.id ++ "x" ++ optQtyToStr item.quantity

/-- The order-independent cart signature (`.map(sig).sort().join(',')`). -/
def cartSignature (cart : List CartItem) : String :=
  String.intercalate "," (sortByB strLeB (cart.map lineSig))

/-- Model of the whole auto-bundler effect: the resulting cart plus whether
the cart was replaced and the combo notification raised. -/
def comboPass (allLiveProducts : List Product) (freshTs : ℕ → ℕ)
    (cart : List CartItem) : List CartItem × Bool :=
  if cart.length < 2 ∨ allLiveProducts.length = 0 then (cart, false)
  else
    let avail := buildAvailableKits cart
    let st := runCombos avail freshTs (sortedCombos allLiveProducts) ⟨[], []⟩
    if 0 < st.combosToAdd.length then
      let newCart := rebuildCart cart st
      if cartSignature cart ≠ cartSignature newCart then (newCart, true) else (cart, false)
    else (cart, false)

/-- Every pooled token of an availability table. -/
def allTokens (avail : List (String × List VToken)) : List VToken :=
  (avail.map (fun e => e.2)).flatten

/-- How many pooled tokens a consumed set still leaves available. -/
def unconsumedCount (avail : List (String × List VToken)) (consumed : List VToken) : ℕ :=
  ((allTokens avail).filter (fun t => !consumed.contains t)).length

/-- The timestamp-free content of a cart line (what the cart signature and
the bundling decisions can observe). -/
def lineCore (i : CartItem) : Product × Kit × Option ℤ := (i.product, i.kit, i.quantity)

/-- The signature of a line as a function of its timestamp-free content. -/
def coreSig (c : Product × Kit × Option ℤ) : String := c.2.1.id ++ "x" ++ optQtyToStr c.2.2

/-! ### Catalog data (from `src/unnamed/part_000`), used for concrete runs -/

/-- The `Kit completo` kit of the `cerveza` product. -/
def kitCompletoCerveza : Kit :=
  ⟨"kit-completo-cerveza", "Kit completo", false, 12000, none⟩

/-- The extra-barrel kit of the `cerveza` product. -/
def kitExtraCerveza : Kit :=
  ⟨"kit-extra-cerveza", "Kit + barril de recambio", true, 12000, some 7000⟩

/-- The bare-barrel kit of the `cerveza` product. -/
def soloBarrilCerveza : Kit :=
  ⟨"solo-barril-cerveza", "Solo el barril (10L)", false, 8500, none⟩

/-- The `cerveza` catalog product. -/
def cerveza : Product :=
  ⟨"cerveza", "Cerveza artesanal",
   [kitCompletoCerveza, kitExtraCerveza, soloBarrilCerveza],
   some [⟨2, 5⟩, ⟨3, 10⟩, ⟨4, 15⟩], some .individual, none⟩

/-- The `Kit completo` kit of the `fernet` product. -/
def kitCompletoFernet : Kit :=
  ⟨"kit-completo-fernet", "Kit completo", false, 13000, none⟩

/-- The `fernet` catalog product. -/
def fernet : Product :=
  ⟨"fernet", "Fernet con coca",
   [kitCompletoFernet,
    ⟨"kit-extra-fernet", "Kit + barril de recambio", true, 13000, some 7500⟩,
    ⟨"solo-barril-fernet", "Solo el barril (10L)", false, 9000, none⟩],
   some [⟨2, 5⟩, ⟨3, 10⟩], some .individual, none⟩

/-- The `Kit completo` kit of the `gin-tonic` product. -/
def kitCompletoGin : Kit :=
  ⟨"kit-completo-gin", "Kit completo", false, 15000, none⟩

/-- The `gin-tonic` catalog product. -/
def ginTonic : Product :=
  ⟨"gin-tonic", "Gin tonic",
   [kitCompletoGin,
    ⟨"kit-extra-gin", "Kit + barril de recambio", true, 15000, some 9000⟩,
    ⟨"solo-barril-gin", "Solo el barril (10L)", false, 11000, none⟩],
   some [⟨2, 5⟩, ⟨3, 10⟩, ⟨4, 15⟩], some .individual, none⟩

/-- The complete-kit variant of the `Ruta 19` combo. -/
def kitCompletoRuta19 : Kit :=
  ⟨"kit-completo-ruta-19", "Kit completo", false, 25000, none⟩

/-- The `Ruta 19` (fernet + cerveza) combo. -/
def ruta19 : Product :=
  ⟨"ruta-19", "Ruta 19 (Fernet+Cerveza)",
   [kitCompletoRuta19,
    ⟨"solo-barriles-ruta-19", "Solo los barriles", false, 17500, none⟩],
   some [⟨1, 10⟩], some .combo, some ["fernet", "cerveza"]⟩

/-- The `Casa Tres` (cerveza + gin + fernet) combo. -/
def casaTres : Product :=
  ⟨"casa-tres", "Casa Tres (Cerveza+Gin+Fernet)",
   [⟨"kit-completo-casa-tres", "Kit completo", false, 40000, none⟩,
    ⟨"solo-barriles-casa-tres", "Solo los barriles", false, 28500, none⟩],
   some [⟨1, 10⟩], some .combo, some ["cerveza", "gin-tonic", "fernet"]⟩

/-! ### Derived notions used by the statements -/

/-- The specification's notion of an extra-unit kit: the flag is set and a
per-extra-unit price is present and non-zero. -/
def isExtraUnitKit (k : Kit) : Prop :=
  k.hasExtraBarrelSelector = true ∧ ∃ v, k.pricePerExtraBarrel = some v ∧ v ≠ 0

/-- Lookup of a product's entry in a grouping association list. -/
def glookup (l : List (String × GroupedProduct)) (pid : String) : Option GroupedProduct :=
  (l.find? (fun e => e.1 == pid)).map (fun e => e.2)

/-- The effect of one grouping step on one product's entry, seen through
`glookup`. -/
def groupAccStep (og : Option GroupedProduct) (item : CartItem) : Option GroupedProduct :=
  some (addToGroup (og.getD ⟨item.product, 0, 0⟩) item)

/-- The concrete product list used by the concrete bundler runs. -/
def exProducts : List Product := [cerveza, fernet, ruta19]

/-- A deterministic stand-in for the `Date.now() + Math.random()` supply of
new combo-line timestamps. -/
def exFreshTs : ℕ → ℕ := fun n => 5000 + n

/-- A cart holding two separate `kit-completo-cerveza` lines (reachable by
hydrating the persisted cart) plus two fernet complete kits. -/
def exCartDup : List CartItem :=
  [⟨cerveza, kitCompletoCerveza, some 1, 1000⟩,
   ⟨cerveza, kitCompletoCerveza, some 1, 2000⟩,
   ⟨fernet, kitCompletoFernet, some 2, 3000⟩]

theorem mem_insertSorted (le : α → α → Bool) (a x : α) (l : List α) :
    x ∈ insertSorted le a l ↔ x = a ∨ x ∈ l := by
  induction l with
  | nil => simp [insertSorted]
  | cons b bs ih =>
    simp only [insertSorted]
    split
    · simp [List.mem_cons]
    · simp only [List.mem_cons, ih]
      tauto

theorem insertSorted_perm (le : α → α → Bool) (a : α) (l : List α) :
    (insertSorted le a l).Perm (a :: l) := by
  induction l with
  | nil => simp [insertSorted]
  | cons b bs ih =>
    simp only [insertSorted]
    split
    · exact List.Perm.refl _
    · exact (ih.cons b).trans (List.Perm.swap a b bs)

theorem sortByB_perm (le : α → α → Bool) (l : List α) : (sortByB le l).Perm l := by
  induction l with
  | nil => simp [sortByB]
  | cons a as ih => exact (insertSorted_perm le a (sortByB le as)).trans (ih.cons a)

theorem mem_sortByB (le : α → α → Bool) (x : α) (l : List α) :
    x ∈ sortByB le l ↔ x ∈ l :=
  (sortByB_perm le l).mem_iff

theorem pairwise_insertSorted (le : α → α → Bool)
    (total : ∀ a b, le a b = true ∨ le b a = true)
    (htrans : ∀ a b c, le a b = true → le b c = true → le a c = true)
    (a : α) (l : List α) (h : l.Pairwise (fun x y => le x y = true)) :
    (insertSorted le a l).Pairwise (fun x y => le x y = true) := by
  induction l with
  | nil => simp [insertSorted]
  | cons b bs ih =>
    rcases List.pairwise_cons.mp h with ⟨hb, hbs⟩
    simp only [insertSorted]
    split
    · rename_i hab
      refine List.pairwise_cons.mpr ⟨?_, h⟩
      intro x hx
      rcases List.mem_cons.mp hx with rfl | hx
      · exact hab
      · exact htrans a b x hab (hb x hx)
    · rename_i hab
      refine List.pairwise_cons.mpr ⟨?_, ih hbs⟩
      intro x hx
      rcases (mem_insertSorted le a x bs).mp hx with rfl | hx
      · rcases total x b with h' | h'
        · cases hab h'
        · exact h'
      · exact hb x hx

theorem pairwise_sortByB (le : α → α → Bool)
    (total : ∀ a b, le a b = true ∨ le b a = true)
    (htrans : ∀ a b c, le a b = true → le b c = true → le a c = true)
    (l : List α) : (sortByB le l).Pairwise (fun x y => le x y = true) := by
  induction l with
  | nil => simp [sortByB]
  | cons a as ih => exact pairwise_insertSorted le total htrans a _ ih

/-! ### The applicable-tier computation: characterisation -/

theorem tierGe_total (a b : DiscountTier) : tierGe a b = true ∨ tierGe b a = true := by
  simp only [tierGe, decide_eq_true_eq]
  omega

theorem tierGe_trans (a b c : DiscountTier) :
    tierGe a b = true → tierGe b c = true → tierGe a c = true := by
  simp only [tierGe, decide_eq_true_eq]
  omega

theorem find?_sorted_max (count : ℤ) (sl : List DiscountTier)
    (hs : sl.Pairwise (fun x y => tierGe x y = true)) (u : DiscountTier)
    (hu : sl.find? (fun t => decide (t.quantity ≤ count)) = some u) :
    ∀ t ∈ sl, t.quantity ≤ count → t.quantity ≤ u.quantity := by
  induction sl with
  | nil => simp at hu
  | cons a as ih =>
    rcases List.pairwise_cons.mp hs with ⟨ha, has⟩
    rw [List.find?_cons] at hu
    intro t ht htq
    rcases List.mem_cons.mp ht with rfl | hta
    · by_cases hq : decide (t.quantity ≤ count) = true
      · rw [hq] at hu
        cases hu
        exact le_refl _
      · simp only [decide_eq_true_eq] at hq
        exact absurd htq hq
    · by_cases hq : decide (a.quantity ≤ count) = true
      · rw [hq] at hu
        cases hu
        have h' := ha t hta
        simp only [tierGe, decide_eq_true_eq] at h'
        exact h'
      · rw [Bool.not_eq_true] at hq
        rw [hq] at hu
        exact ih has hu t hta htq

theorem applicableTier_none_iff (tiers : List DiscountTier) (count : ℤ) :
    findApplicableTier tiers count = none ↔ ∀ t ∈ tiers, count < t.quantity := by
  unfold findApplicableTier
  rw [List.find?_eq_none]
  constructor
  · intro h t ht
    have := h t ((mem_sortByB tierGe t tiers).mpr ht)
    simp only [decide_eq_true_eq] at this
    omega
  · intro h t ht
    have := h t ((mem_sortByB tierGe t tiers).mp ht)
    simp only [decide_eq_true_eq]
    omega

theorem applicableTier_some_spec (tiers : List DiscountTier) (count : ℤ)
    (u : DiscountTier) (h : findApplicableTier tiers count = some u) :
    u ∈ tiers ∧ u.quantity ≤ count ∧
      ∀ t ∈ tiers, t.quantity ≤ count → t.quantity ≤ u.quantity := by
  unfold findApplicableTier at h
  refine ⟨(mem_sortByB tierGe u tiers).mp (List.mem_of_find?_eq_some h), ?_, ?_⟩
  · have := List.find?_some h
    simpa using this
  · intro t ht htq
    exact find?_sorted_max count _
      (pairwise_sortByB tierGe tierGe_total tierGe_trans tiers) u h t
      ((mem_sortByB tierGe t tiers).mpr ht) htq

/-- C1: for every tier list and effective count, the selected tier is one with
the maximum threshold not exceeding the count, no tier is selected exactly
when every threshold exceeds the count, and the selected threshold does not
depend on the order in which the tiers are listed. -/
theorem C1_applicable_tier_is_max :
    ∀ (tiers : List DiscountTier) (count : ℤ),
      (findApplicableTier tiers count = none ↔ ∀ t ∈ tiers, count < t.quantity) ∧
      (∀ u, findApplicableTier tiers count = some u →
        u ∈ tiers ∧ u.quantity ≤ count ∧
          ∀ t ∈ tiers, t.quantity ≤ count → t.quantity ≤ u.quantity) ∧
      (∀ tiers' : List DiscountTier, tiers'.Perm tiers →
        (findApplicableTier tiers' count).map DiscountTier.quantity =
          (findApplicableTier tiers count).map DiscountTier.quantity) := by
  intro tiers count
  refine ⟨applicableTier_none_iff tiers count,
          fun u h => applicableTier_some_spec tiers count u h, ?_⟩
  intro tiers' hperm
  cases h : findApplicableTier tiers count with
  | none =>
    have hall := (applicableTier_none_iff tiers count).mp h
    have : findApplicableTier tiers' count = none :=
      (applicableTier_none_iff tiers' count).mpr (fun t ht => hall t (hperm.mem_iff.mp ht))
    rw [this]
  | some u =>
    rcases applicableTier_some_spec tiers count u h with ⟨humem, huq, humax⟩
    cases h' : findApplicableTier tiers' count with
    | none =>
      have hall := (applicableTier_none_iff tiers' count).mp h'
      have := hall u (hperm.mem_iff.mpr humem)
      omega
    | some u' =>
      rcases applicableTier_some_spec tiers' count u' h' with ⟨humem', huq', humax'⟩
      have h1 : u'.quantity ≤ u.quantity := humax u' (hperm.mem_iff.mp humem') huq'
      have h2 : u.quantity ≤ u'.quantity := humax' u (hperm.mem_iff.mpr humem) huq
      have : u'.quantity = u.quantity := le_antisymm h1 h2
      simp [this]

/-- Witness for C1 at the specification's own example: tiers
`[{2,5%},{3,10%},{4,15%}]` with count 3 select the 10% tier, whose threshold
3 is maximal among the qualifying ones. -/
theorem C1_applicable_tier_is_max_witness :
    (⟨3, 10⟩ : DiscountTier) ∈ [(⟨2, 5⟩ : DiscountTier), ⟨3, 10⟩, ⟨4, 15⟩] ∧
      (⟨3, 10⟩ : DiscountTier).quantity ≤ 3 ∧
      ∀ t ∈ [(⟨2, 5⟩ : DiscountTier), ⟨3, 10⟩, ⟨4, 15⟩],
        t.quantity ≤ 3 → t.quantity ≤ (⟨3, 10⟩ : DiscountTier).quantity :=
  (C1_applicable_tier_is_max [⟨2, 5⟩, ⟨3, 10⟩, ⟨4, 15⟩] 3).2.1 ⟨3, 10⟩ rfl

/-! ### Marketing rounding and where it is applied -/

/-- C8: the marketing rounding maps non-positive amounts to zero and every
positive amount to the next upper multiple of one thousand minus ten (with
the two concrete spec examples), and the product page applies it exactly to
combo-typed products carrying an applicable discount tier — never without a
tier, and never to a non-combo product. -/
theorem C8_marketing_rounding :
    (∀ p : ℚ, p ≤ 0 → smartRoundToMarketingPrice p = 0) ∧
    (∀ p : ℚ, 0 < p → smartRoundToMarketingPrice p = 1000 * (⌈p / 1000⌉ : ℚ) - 10) ∧
    smartRoundToMarketingPrice 24630 = 24990 ∧
    smartRoundToMarketingPrice 20001 = 20990 ∧
    (∀ (product : Product) (kit : Kit) (requested : ℤ),
      product.type ≠ some .combo →
      finalPricePD product kit requested = discountedPricePD product kit requested) ∧
    (∀ (product : Product) (kit : Kit) (requested : ℤ),
      applicableTierPD product kit requested = none →
      finalPricePD product kit requested = dynamicPricePD product kit requested) ∧
    (∀ (product : Product) (kit : Kit) (requested : ℤ) (t : DiscountTier),
      product.type = some .combo →
      applicableTierPD product kit requested = some t →
      finalPricePD product kit requested =
        smartRoundToMarketingPrice
          (dynamicPricePD product kit requested * (1 - t.percentage / 100))) := by
  refine ⟨?_, ?_, ?_, ?_, ?_, ?_, ?_⟩
  · intro p hp
    simp [smartRoundToMarketingPrice, hp]
  · intro p hp
    rw [smartRoundToMarketingPrice, if_neg (by linarith)]
    ring
  · rw [smartRoundToMarketingPrice, if_neg (by norm_num)]
    have hc : ⌈(24630 : ℚ) / 1000⌉ = 25 := by
      rw [Int.ceil_eq_iff]; norm_num
    rw [hc]
    norm_num
  · rw [smartRoundToMarketingPrice, if_neg (by norm_num)]
    have hc : ⌈(20001 : ℚ) / 1000⌉ = 21 := by
      rw [Int.ceil_eq_iff]; norm_num
    rw [hc]
    norm_num
  · intro product kit requested h
    have hb : (product.type == some PType.combo) = false := by
      simpa [beq_iff_eq] using h
    simp [finalPricePD, hb]
  · intro product kit requested h
    simp [finalPricePD, discountedPricePD, h]
  · intro product kit requested t htype htier
    simp [finalPricePD, discountedPricePD, htype, htier]

/-- Witness for C8: the positive-amount conjunct applied at 24630. -/
theorem C8_marketing_rounding_witness :
    smartRoundToMarketingPrice 24630 = 1000 * (⌈(24630 : ℚ) / 1000⌉ : ℚ) - 10 :=
  C8_marketing_rounding.2.1 24630 (by decide)

/-! ### The raw line total -/

theorem truthyQ_eq_true_iff (x : Option ℚ) :
    truthyQ x = true ↔ ∃ v, x = some v ∧ v ≠ 0 := by
  cases x with
  | none => simp [truthyQ]
  | some v => simp [truthyQ]

/-- C2: a line of an extra-unit kit costs the base price plus quantity times
the per-extra-unit price; any other line costs base price times quantity; a
missing or malformed stored quantity prices like quantity zero. -/
theorem C2_line_total :
    ∀ item : CartItem,
      (∀ v : ℚ, item.kit.pricePerExtraBarrel = some v → v ≠ 0 →
        item.kit.hasExtraBarrelSelector = true →
        calculateItemTotal item = item.kit.price + (qty item : ℚ) * v) ∧
      (¬ isExtraUnitKit item.kit →
        calculateItemTotal item = item.kit.price * (qty item : ℚ)) ∧
      (item.quantity = none →
        calculateItemTotal item =
          calculateItemTotal ⟨item.product, item.kit, some 0, item.timestamp⟩) := by
  intro item
  refine ⟨?_, ?_, ?_⟩
  · intro v hv hv0 hflag
    have ht : truthyQ item.kit.pricePerExtraBarrel = true :=
      (truthyQ_eq_true_iff _).mpr ⟨v, hv, hv0⟩
    simp only [calculateItemTotal]
    rw [hflag, ht]
    simp [hv]
  · intro h
    rw [calculateItemTotal]
    by_cases hflag : item.kit.hasExtraBarrelSelector = true
    · by_cases ht : truthyQ item.kit.pricePerExtraBarrel = true
      · rcases (truthyQ_eq_true_iff _).mp ht with ⟨v, hv, hv0⟩
        exact absurd ⟨hflag, v, hv, hv0⟩ h
      · rw [Bool.not_eq_true] at ht
        simp [ht]
    · rw [Bool.not_eq_true] at hflag
      simp [hflag]
  · intro h
    simp [calculateItemTotal, qty, jsOr, h]

/-- Witness for C2 on the real catalog: the extra-barrel cerveza kit with two
extra barrels prices as base price plus two extra barrels. -/
theorem C2_line_total_witness :
    calculateItemTotal ⟨cerveza, kitExtraCerveza, some 2, 0⟩ =
      kitExtraCerveza.price + ((qty ⟨cerveza, kitExtraCerveza, some 2, 0⟩ : ℤ) : ℚ) * 7000 :=
  (C2_line_total ⟨cerveza, kitExtraCerveza, some 2, 0⟩).1 7000 rfl (by decide) rfl

/-- C10: a kit flagged with the extra-barrel selector whose per-extra-unit
price is absent or zero prices on the plain branch, base price times
quantity. -/
theorem C10_flag_without_extra_price :
    ∀ item : CartItem,
      item.kit.hasExtraBarrelSelector = true →
      (item.kit.pricePerExtraBarrel = none ∨ item.kit.pricePerExtraBarrel = some 0) →
      calculateItemTotal item = item.kit.price * (qty item : ℚ) := by
  intro item hflag h
  rw [calculateItemTotal]
  have ht : truthyQ item.kit.pricePerExtraBarrel = false := by
    rcases h with h | h <;> simp [truthyQ, h]
  simp [ht]

/-- Witness for C10: a flagged kit with a zero per-extra-barrel price. -/
theorem C10_flag_without_extra_price_witness :
    calculateItemTotal
        ⟨cerveza, ⟨"kit-degraded", "Kit", true, 100, some 0⟩, some 3, 0⟩ =
      (⟨"kit-degraded", "Kit", true, 100, some 0⟩ : Kit).price *
        ((qty ⟨cerveza, ⟨"kit-degraded", "Kit", true, 100, some 0⟩, some 3, 0⟩ : ℤ) : ℚ) :=
  C10_flag_without_extra_price _ rfl (Or.inr rfl)

/-! ### Quantity updates (C7) -/

/-- Counterexample to C7 as stated: `handleUpdateCartQuantity` itself applies
no clamping, so requesting quantity 100 stores quantity 100, far outside
`[1, 5]`. -/
theorem C7_counterexample :
    (handleUpdateCartQuantity [⟨cerveza, kitCompletoCerveza, some 3, 1000⟩] 1000
        (some 100)).map (fun item => item.quantity) = [some 100] ∧
      ¬ ∀ item ∈ handleUpdateCartQuantity [⟨cerveza, kitCompletoCerveza, some 3, 1000⟩]
          1000 (some 100), 1 ≤ jsOr item.quantity 0 ∧ jsOr item.quantity 0 ≤ 5 := by
  constructor
  · rfl
  · decide

theorem jsOr_none (d : ℤ) : jsOr none d = d := rfl

theorem jsOr_some (n d : ℤ) : jsOr (some n) d = if n = 0 then d else n := rfl

theorem handleUpdate_preserves_bounds (cart : List CartItem) (ts : ℕ) (v : ℤ)
    (hv1 : 1 ≤ v) (hv5 : v ≤ 5)
    (h : ∀ item ∈ cart, 1 ≤ jsOr item.quantity 0 ∧ jsOr item.quantity 0 ≤ 5) :
    ∀ item ∈ handleUpdateCartQuantity cart ts (some v),
      1 ≤ jsOr item.quantity 0 ∧ jsOr item.quantity 0 ≤ 5 := by
  intro item hitem
  rcases List.mem_map.mp hitem with ⟨orig, horig, rfl⟩
  by_cases hts : (orig.timestamp == ts) = true
  · simp only [hts, if_pos]
    rw [jsOr_some]
    split
    · omega
    · omega
  · rw [Bool.not_eq_true] at hts
    simp only [hts, Bool.false_eq_true, if_neg, not_false_iff]
    exact h orig horig

theorem bounds_of_mem (cart : List CartItem) (f : CartItem)
    (h : ∀ item ∈ cart, 1 ≤ jsOr item.quantity 0 ∧ jsOr item.quantity 0 ≤ 5)
    (hf : f ∈ cart) : ∃ m : ℤ, f.quantity = some m ∧ 1 ≤ m ∧ m ≤ 5 := by
  rcases h f hf with ⟨h1, h5⟩
  cases hq : f.quantity with
  | none => rw [hq, jsOr_none] at h1; omega
  | some m =>
    rw [hq, jsOr_some] at h1 h5
    by_cases hm : m = 0
    · rw [if_pos hm] at h1; omega
    · rw [if_neg hm] at h1 h5
      exact ⟨m, rfl, h1, h5⟩

/-- C7 amended: `handleUpdateCartQuantity` applies no clamping itself (see
the counterexample); the clamping the specification describes lives at the
cart screen's two call sites, which request `max(1, q − 1)` and
`min(5, q + 1)`, so any update issued through the cart screen's controls
keeps every line quantity inside `[1, 5]`. -/
theorem C7_update_clamped_at_call_sites :
    ∀ (cart : List CartItem) (ts : ℕ),
      (∀ item ∈ cart, 1 ≤ jsOr item.quantity 0 ∧ jsOr item.quantity 0 ≤ 5) →
      (∀ item ∈ cartScreenDecrement cart ts,
        1 ≤ jsOr item.quantity 0 ∧ jsOr item.quantity 0 ≤ 5) ∧
      (∀ item ∈ cartScreenIncrement cart ts,
        1 ≤ jsOr item.quantity 0 ∧ jsOr item.quantity 0 ≤ 5) := by
  intro cart ts h
  constructor
  · rw [cartScreenDecrement]
    cases hfind : cart.find? (fun item => item.timestamp == ts) with
    | none => exact h
    | some f =>
      rcases bounds_of_mem cart f h (List.mem_of_find?_eq_some hfind) with ⟨m, hm, hm1, hm5⟩
      have hreq : cartDecrementRequest f = max 1 (m - 1) := by
        rw [cartDecrementRequest, hm, jsOr_some, if_neg (by omega)]
      have hgoal : ∀ item ∈ handleUpdateCartQuantity cart ts (some (cartDecrementRequest f)),
          1 ≤ jsOr item.quantity 0 ∧ jsOr item.quantity 0 ≤ 5 := by
        rw [hreq]
        exact handleUpdate_preserves_bounds cart ts _ (by omega) (by omega) h
      exact hgoal
  · rw [cartScreenIncrement]
    cases hfind : cart.find? (fun item => item.timestamp == ts) with
    | none => exact h
    | some f =>
      rcases bounds_of_mem cart f h (List.mem_of_find?_eq_some hfind) with ⟨m, hm, hm1, hm5⟩
      have hreq : cartIncrementRequest f = min 5 (m + 1) := by
        rw [cartIncrementRequest, hm, jsOr_some, if_neg (by omega)]
      have hgoal : ∀ item ∈ handleUpdateCartQuantity cart ts (some (cartIncrementRequest f)),
          1 ≤ jsOr item.quantity 0 ∧ jsOr item.quantity 0 ≤ 5 := by
        rw [hreq]
        exact handleUpdate_preserves_bounds cart ts _ (by omega) (by omega) h
      exact hgoal

/-- Witness for the amended C7 on a concrete one-line cart. -/
theorem C7_update_clamped_at_call_sites_witness :
    (∀ item ∈ cartScreenDecrement [⟨cerveza, kitCompletoCerveza, some 1, 42⟩] 42,
      1 ≤ jsOr item.quantity 0 ∧ jsOr item.quantity 0 ≤ 5) ∧
    (∀ item ∈ cartScreenIncrement [⟨cerveza, kitCompletoCerveza, some 1, 42⟩] 42,
      1 ≤ jsOr item.quantity 0 ∧ jsOr item.quantity 0 ≤ 5) :=
  C7_update_clamped_at_call_sites [⟨cerveza, kitCompletoCerveza, some 1, 42⟩] 42
    (by decide)

/-! ### Adding to the cart (C6) -/

/-- Counterexample to C6 as stated: adding three more units of a kit already
present with quantity five yields quantity eight — the add path performs no
clamping to the allowed range. -/
theorem C6_counterexample :
    (handleAddToCart [⟨cerveza, kitCompletoCerveza, some 5, 1000⟩] cerveza
        kitCompletoCerveza 3 2000).1.map (fun item => item.quantity) = [some 8] ∧
      ¬ ((8 : ℤ) ≤ 5) := by
  constructor
  · rfl
  · decide

/-- C6 amended: adding an already-present combo kit is rejected as a no-op
with the "already in your order" feedback; adding an already-present kit of a
non-combo product grows that line's quantity by the requested amount with no
clamping and creates no duplicate line; otherwise a new line keyed by the
current timestamp is appended (unique whenever the timestamp is fresh). -/
theorem C6_add_to_cart_behaviour :
    ∀ (cart : List CartItem) (product : Product) (kit : Kit) (quantity : ℤ) (now : ℕ),
      (product.type = some .combo → (∃ line ∈ cart, line.kit.id = kit.id) →
        handleAddToCart cart product kit quantity now = (cart, .comboAlready)) ∧
      (product.type ≠ some .combo →
        ∀ existing, cart.find? (fun i => i.kit.id == kit.id) = some existing →
        (handleAddToCart cart product kit quantity now).2 = .added ∧
        (handleAddToCart cart product kit quantity now).1.length = cart.length ∧
        ((cart.map (fun i => i.timestamp)).Nodup →
          ∀ q0 : ℤ, existing.quantity = some q0 →
          (handleAddToCart cart product kit quantity now).1.map
              (fun i => (i.timestamp, i.quantity)) =
            cart.map (fun i => (i.timestamp,
              if i.timestamp = existing.timestamp then some (q0 + quantity)
              else i.quantity)))) ∧
      ((∀ line ∈ cart, line.kit.id ≠ kit.id) →
        (handleAddToCart cart product kit quantity now).1 =
          cart ++ [⟨product, kit,
            if product.type = some .combo then some 1 else some quantity, now⟩] ∧
        (handleAddToCart cart product kit quantity now).2 =
          (if product.type = some .combo then .comboAdded else .added) ∧
        ((∀ line ∈ cart, line.timestamp ≠ now) →
          (cart.map (fun i => i.timestamp)).Nodup →
          ((handleAddToCart cart product kit quantity now).1.map
              (fun i => i.timestamp)).Nodup)) := by
  intro cart product kit quantity now
  refine ⟨?_, ?_, ?_⟩
  · intro htype ⟨line, hline, hkid⟩
    have hbeq : (product.type == some PType.combo) = true := by simp [htype]
    have : ∃ i, cart.find? (fun i => i.kit.id == kit.id) = some i := by
      rw [← Option.isSome_iff_exists, List.find?_isSome]
      exact ⟨line, hline, by simp [hkid]⟩
    rcases this with ⟨i, hi⟩
    rw [handleAddToCart]
    simp only [hbeq, if_pos, hi]
  · intro htype existing hfind
    have hbeq : (product.type == some PType.combo) = false := by
      simpa [beq_iff_eq] using htype
    have heq : handleAddToCart cart product kit quantity now =
        (handleUpdateCartQuantity cart existing.timestamp
          (existing.quantity.map (· + quantity)), .added) := by
      rw [handleAddToCart]
      simp only [hbeq, Bool.false_eq_true, if_neg, not_false_iff, hfind]
    refine ⟨by rw [heq], by rw [heq]; exact List.length_map _ _, ?_⟩
    intro hnodup q0 hq0
    rw [heq]
    simp only [handleUpdateCartQuantity, List.map_map]
    apply List.map_congr_left
    intro i hi
    by_cases hts : i.timestamp = existing.timestamp
    · have hieq : i = existing :=
        List.inj_on_of_nodup_map hnodup hi
          (List.mem_of_find?_eq_some hfind) hts
      simp [Function.comp, hts, hieq, hq0]
    · have hbts : (i.timestamp == existing.timestamp) = false := by
        simpa using hts
      simp [Function.comp, hbts, hts]
  · intro hnone
    have hfind : cart.find? (fun i => i.kit.id == kit.id) = none := by
      rw [List.find?_eq_none]
      intro line hline
      simpa using hnone line hline
    have hout : handleAddToCart cart product kit quantity now =
        (cart ++ [⟨product, kit,
          if product.type = some .combo then some 1 else some quantity, now⟩],
         if product.type = some .combo then .comboAdded else .added) := by
      rw [handleAddToCart]
      by_cases htype : product.type = some PType.combo
      · have hbeq : (product.type == some PType.combo) = true := by simp [htype]
        simp [hbeq, hfind, htype]
      · have hbeq : (product.type == some PType.combo) = false := by
          simpa [beq_iff_eq] using htype
        simp [hbeq, hfind, htype]
    refine ⟨by rw [hout], by rw [hout], ?_⟩
    intro hfresh hnodup
    rw [hout]
    simp only [List.map_append, List.map_cons, List.map_nil]
    rw [List.nodup_append]
    refine ⟨hnodup, List.nodup_singleton _, ?_⟩
    intro t ht
    rcases List.mem_map.mp ht with ⟨line, hline, rfl⟩
    simp only [List.mem_singleton]
    exact fun hc => hfresh line hline hc

/-- Witness for the amended C6: re-adding the already-present Ruta 19 combo
is rejected with the "already in your order" feedback. -/
theorem C6_add_to_cart_behaviour_witness :
    handleAddToCart [⟨ruta19, kitCompletoRuta19, some 1, 500⟩] ruta19
        kitCompletoRuta19 1 600 =
      ([⟨ruta19, kitCompletoRuta19, some 1, 500⟩], .comboAlready) :=
  (C6_add_to_cart_behaviour [⟨ruta19, kitCompletoRuta19, some 1, 500⟩] ruta19
      kitCompletoRuta19 1 600).1 rfl
    ⟨⟨ruta19, kitCompletoRuta19, some 1, 500⟩, by simp, rfl⟩

/-! ### The order message (C9) -/

theorem cartSubtotal_eq (cart : List CartItem) :
    cartSubtotal cart = (cart.map calculateItemTotal).sum := by
  rw [cartSubtotal, List.sum_eq_foldl, List.foldl_map]

theorem totalDiscountAmount_eq (discounts : List (String × AutomaticDiscount)) :
    totalDiscountAmount discounts = (discounts.map (fun e => e.2.amount)).sum := by
  rw [totalDiscountAmount, List.sum_eq_foldl, List.foldl_map]

/-- C9: the order message is the fixed empty-order sentence on an empty cart;
on a non-empty cart with a non-empty discount map it carries a subtotal line,
a total-discount line summing every discount entry, and a final-total line
whose amount is the subtotal minus the summed discounts. -/
theorem C9_order_message :
    ∀ (fmt : ℚ → String) (cart : List CartItem)
      (discounts : List (String × AutomaticDiscount)),
      (cart = [] → generateOrderMessage fmt cart discounts = "Mi pedido está vacío.") ∧
      (cart ≠ [] → discounts ≠ [] →
        ∃ itemsStr : String,
          generateOrderMessage fmt cart discounts =
            "*¡Hola! Quisiera hacer el siguiente pedido:*\n\n" ++ itemsStr ++
              "\n\n*Subtotal:* " ++ fmt ((cart.map calculateItemTotal).sum) ++
              "\n*Ahorro por cantidad:* -" ++
              fmt ((discounts.map (fun e => e.2.amount)).sum) ++
              "\n\n*Total Final: " ++
              fmt ((cart.map calculateItemTotal).sum -
                    (discounts.map (fun e => e.2.amount)).sum) ++
              "*\n\n¡Muchas gracias!") := by
  intro fmt cart discounts
  constructor
  · intro h
    rw [h]
    rfl
  · intro hc hd
    refine ⟨String.intercalate "\n" (cart.map (itemLine fmt)), ?_⟩
    have h0 : ¬ (cart.length = 0) := fun h0 => hc (List.length_eq_zero.mp h0)
    have hd0 : 0 < discounts.length := List.length_pos.mpr hd
    rw [generateOrderMessage, if_neg h0]
    simp only [if_pos hd0, cartSubtotal_eq, totalDiscountAmount_eq]
    simp [String.append_assoc]

/-- Witness for C9 on a concrete one-line cart with one discount entry. -/
theorem C9_order_message_witness :
    ∃ itemsStr : String,
      generateOrderMessage (fun q => toString q.num)
          [⟨cerveza, kitCompletoCerveza, some 2, 7⟩] [("cerveza", ⟨5, 1200⟩)] =
        "*¡Hola! Quisiera hacer el siguiente pedido:*\n\n" ++ itemsStr ++
          "\n\n*Subtotal:* " ++
          (fun q : ℚ => toString q.num)
            (([⟨cerveza, kitCompletoCerveza, some 2, 7⟩] :
                List CartItem).map calculateItemTotal).sum ++
          "\n*Ahorro por cantidad:* -" ++
          (fun q : ℚ => toString q.num)
            (([("cerveza", (⟨5, 1200⟩ : AutomaticDiscount))].map (fun e => e.2.amount)).sum) ++
          "\n\n*Total Final: " ++
          (fun q : ℚ => toString q.num)
            ((([⟨cerveza, kitCompletoCerveza, some 2, 7⟩] :
                List CartItem).map calculateItemTotal).sum -
              (([("cerveza", (⟨5, 1200⟩ : AutomaticDiscount))].map
                  (fun e => e.2.amount)).sum)) ++
          "*\n\n¡Muchas gracias!" :=
  (C9_order_message (fun q => toString q.num)
      [⟨cerveza, kitCompletoCerveza, some 2, 7⟩] [("cerveza", ⟨5, 1200⟩)]).2
    (by simp) (by simp)

/-! ### The grouped automatic discounts (C3) -/

theorem find?_map_keyEq (p : String → Bool)
    (upd : (String × β) → (String × β))
    (hk : ∀ e, (upd e).1 = e.1) (l : List (String × β)) :
    (l.map upd).find? (fun e => p e.1) = (l.find? (fun e => p e.1)).map upd := by
  induction l with
  | nil => rfl
  | cons a as ih =>
    simp only [List.map_cons, List.find?_cons, hk a]
    cases p a.1 with
    | true => rfl
    | false => exact ih

theorem glookup_groupStep (acc : List (String × GroupedProduct)) (item : CartItem)
    (pid : String) :
    glookup (groupStep acc item) pid =
      if item.product.id = pid then groupAccStep (glookup acc pid) item
      else glookup acc pid := by
  have hk : ∀ e : String × GroupedProduct,
      ((fun e => if e.1 == item.product.id then (e.1, addToGroup e.2 item) else e) e).1
        = e.1 := by
    intro e
    by_cases h : (e.1 == item.product.id) = true
    · simp [h]
    · rw [Bool.not_eq_true] at h
      simp [h]
  by_cases hmem : acc.any (fun e => e.1 == item.product.id) = true
  · rw [groupStep]
    simp only [hmem, if_pos]
    rw [glookup, find?_map_keyEq (fun k => k == pid) _ hk acc]
    by_cases hpid : item.product.id = pid
    · subst hpid
      rcases List.any_eq_true.mp hmem with ⟨e, he, hek⟩
      have hfind : ∃ u, acc.find? (fun e => e.1 == item.product.id) = some u := by
        rw [← Option.isSome_iff_exists, List.find?_isSome]
        exact ⟨e, he, hek⟩
      rcases hfind with ⟨u, hu⟩
      have huk : (u.1 == item.product.id) = true := by
        simpa using List.find?_some hu
      rw [hu]
      simp only [if_pos, Option.map_some', huk, glookup, hu, groupAccStep]
      rfl
    · have hb : ∀ e : String × GroupedProduct, (e.1 == pid) = true →
          (e.1 == item.product.id) = false := by
        intro e he
        have : e.1 = pid := by simpa using he
        subst this
        simpa using fun hc => hpid hc.symm
      rw [if_neg hpid, glookup]
      cases hfind : acc.find? (fun e => e.1 == pid) with
      | none => rfl
      | some u =>
        have huk : (u.1 == pid) = true := by
          simpa using List.find?_some hfind
        have hne : ¬ (u.1 = item.product.id) := by simpa using hb u huk
        simp [hne]
  · rw [groupStep]
    simp only [hmem, Bool.false_eq_true, if_neg, not_false_iff]
    have hacc : ∀ e ∈ acc, (e.1 == item.product.id) = false := by
      intro e he
      by_cases h : (e.1 == item.product.id) = true
      · exact absurd (List.any_eq_true.mpr ⟨e, he, h⟩) hmem
      · rw [Bool.not_eq_true] at h
        exact h
    have hmap : (acc ++ [(item.product.id, (⟨item.product, 0, 0⟩ : GroupedProduct))]).map
        (fun e => if e.1 == item.product.id then (e.1, addToGroup e.2 item) else e) =
        acc ++ [(item.product.id, addToGroup ⟨item.product, 0, 0⟩ item)] := by
      rw [List.map_append]
      have hmapacc : acc.map
          (fun e => if e.1 == item.product.id then (e.1, addToGroup e.2 item) else e) =
          acc.map id := List.map_congr_left (fun e he => by simp [hacc e he])
      rw [hmapacc, List.map_id]
      simp
    rw [hmap, glookup, List.find?_append]
    by_cases hpid : item.product.id = pid
    · subst hpid
      have hnone : acc.find? (fun e => e.1 == item.product.id) = none := by
        rw [List.find?_eq_none]
        intro e he
        simp [hacc e he]
      rw [hnone]
      simp [glookup, hnone, groupAccStep]
    · have hb : ((item.product.id : String) == pid) = false := by
        simpa using hpid
      cases hfind : acc.find? (fun e => e.1 == pid) with
      | none =>
        simp only [glookup, hfind, hb, Option.none_or, List.find?_cons, List.find?_nil,
          Bool.false_eq_true, if_neg, not_false_iff, Option.map_none']
        rw [if_neg hpid]
      | some u =>
        rw [if_neg hpid, glookup, hfind]
        rfl

theorem glookup_foldl (cart : List CartItem) (acc : List (String × GroupedProduct))
    (pid : String) :
    glookup (cart.foldl groupStep acc) pid =
      (groupLines cart pid).foldl groupAccStep (glookup acc pid) := by
  induction cart generalizing acc with
  | nil => rfl
  | cons item rest ih =>
    have hgl : groupLines (item :: rest) pid =
        if (item.product.id == pid) = true then item :: groupLines rest pid
        else groupLines rest pid := by
      rw [groupLines, List.filter_cons]
      rfl
    rw [List.foldl_cons, ih, hgl]
    by_cases hpid : item.product.id = pid
    · have hb : (item.product.id == pid) = true := by simpa using hpid
      rw [glookup_groupStep, if_pos hpid, if_pos hb, List.foldl_cons]
    · have hb : (item.product.id == pid) = false := by simpa using hpid
      rw [glookup_groupStep, if_neg hpid, if_neg (by simp [hb])]

theorem foldl_groupAccStep_some (ls : List CartItem) (g : GroupedProduct) :
    ls.foldl groupAccStep (some g) = some (ls.foldl addToGroup g) := by
  induction ls generalizing g with
  | nil => rfl
  | cons l rest ih => rw [List.foldl_cons, List.foldl_cons, groupAccStep]; exact ih _

theorem foldl_addToGroup (ls : List CartItem) (g : GroupedProduct) :
    (ls.foldl addToGroup g).product = g.product ∧
    (ls.foldl addToGroup g).totalBarrelQuantity =
      g.totalBarrelQuantity + (ls.map getItemBarrelCount).sum ∧
    (ls.foldl addToGroup g).subtotal = g.subtotal + (ls.map calculateItemTotal).sum := by
  induction ls generalizing g with
  | nil => simp
  | cons l rest ih =>
    rw [List.foldl_cons]
    rcases ih (addToGroup g l) with ⟨h1, h2, h3⟩
    refine ⟨h1, ?_, ?_⟩
    · rw [h2, addToGroup]
      simp only [List.map_cons, List.sum_cons]
      ring
    · rw [h3, addToGroup]
      simp only [List.map_cons, List.sum_cons]
      ring

theorem glookup_groupedByProduct (cart : List CartItem) (pid : String) :
    glookup (groupedByProduct cart) pid =
      match groupLines cart pid with
      | [] => none
      | l :: ls => some (ls.foldl addToGroup (addToGroup ⟨l.product, 0, 0⟩ l)) := by
  rw [groupedByProduct, glookup_foldl cart [] pid]
  have h0 : glookup [] pid = none := rfl
  rw [h0]
  cases groupLines cart pid with
  | nil => rfl
  | cons l ls =>
    rw [List.foldl_cons]
    have hstep : groupAccStep none l = some (addToGroup ⟨l.product, 0, 0⟩ l) := rfl
    rw [hstep, foldl_groupAccStep_some]

theorem grouped_entry_spec (cart : List CartItem) (pid : String) (g : GroupedProduct)
    (h : glookup (groupedByProduct cart) pid = some g) :
    g.totalBarrelQuantity = pooledBarrelCount cart pid ∧
    g.subtotal = pooledSubtotal cart pid := by
  rw [glookup_groupedByProduct] at h
  cases hg : groupLines cart pid with
  | nil => rw [hg] at h; cases h
  | cons l ls =>
    rw [hg] at h
    cases h
    rcases foldl_addToGroup ls (addToGroup ⟨l.product, 0, 0⟩ l) with ⟨_, h2, h3⟩
    have ha : (addToGroup ⟨l.product, 0, 0⟩ l).totalBarrelQuantity =
        getItemBarrelCount l := by rw [addToGroup]; simp
    have hb : (addToGroup ⟨l.product, 0, 0⟩ l).subtotal = calculateItemTotal l := by
      rw [addToGroup]; simp
    constructor
    · rw [pooledBarrelCount, hg, h2, ha]
      simp
    · rw [pooledSubtotal, hg, h3, hb]
      simp

theorem glookup_grouped_none_iff (cart : List CartItem) (pid : String) :
    glookup (groupedByProduct cart) pid = none ↔ ∀ item ∈ cart, item.product.id ≠ pid := by
  rw [glookup_groupedByProduct]
  have h1 : (match groupLines cart pid with
      | [] => none
      | l :: ls => some (ls.foldl addToGroup (addToGroup ⟨l.product, 0, 0⟩ l)))
        = (none : Option GroupedProduct) ↔ groupLines cart pid = [] := by
    cases groupLines cart pid with
    | nil => simp
    | cons l ls => simp
  rw [h1, groupLines, List.filter_eq_nil_iff]
  constructor
  · intro h item hitem hc
    exact h item hitem (by simpa using hc)
  · intro h item hitem hb
    exact h item hitem (by simpa using hb)

theorem find?_filterMap_keyed (f : (String × GroupedProduct) → Option AutomaticDiscount)
    (l : List (String × GroupedProduct)) (pid : String)
    (hnodup : (l.map Prod.fst).Nodup) :
    ((l.filterMap (fun e => (f e).map (fun d => (e.1, d)))).find?
        (fun e => e.1 == pid)).map (fun e => e.2) =
      (l.find? (fun e => e.1 == pid)).bind f := by
  induction l with
  | nil => rfl
  | cons a as ih =>
    simp only [List.map_cons, List.nodup_cons] at hnodup
    rcases hnodup with ⟨hnotin, hnd⟩
    rw [List.filterMap_cons, List.find?_cons]
    cases hfa : f a with
    | none =>
      cases hak : (a.1 == pid) with
      | true =>
        have hae : a.1 = pid := by simpa using hak
        have hnone : (as.filterMap (fun e => (f e).map (fun d => (e.1, d)))).find?
            (fun e => e.1 == pid) = none := by
          rw [List.find?_eq_none]
          intro e he
          rcases List.mem_filterMap.mp he with ⟨e', he', hfe'⟩
          cases hfe : f e' with
          | none => rw [hfe] at hfe'; cases hfe'
          | some d =>
            rw [hfe] at hfe'
            cases hfe'
            have hmem : e'.1 ∈ as.map Prod.fst := List.mem_map.mpr ⟨e', he', rfl⟩
            have hne : e'.1 ≠ pid := by
              intro hc
              apply hnotin
              rw [hae, ← hc]
              exact hmem
            simpa using hne
        simp [hnone, hfa]
      | false => simp only [Bool.false_eq_true, if_neg, not_false_iff]; exact ih hnd
    | some d =>
      simp only [Option.map_some']
      rw [List.find?_cons]
      cases hak : (a.1 == pid) with
      | true => simp [hak, hfa]
      | false =>
        have hk2 : (((a.1, d) : String × AutomaticDiscount).1 == pid) = false := hak
        simp only [hk2, hak, Bool.false_eq_true, if_neg, not_false_iff]
        exact ih hnd

theorem keys_groupStep (acc : List (String × GroupedProduct)) (item : CartItem) :
    (groupStep acc item).map Prod.fst =
      if acc.any (fun e => e.1 == item.product.id) = true then acc.map Prod.fst
      else acc.map Prod.fst ++ [item.product.id] := by
  have hupd : ∀ e : String × GroupedProduct,
      ((if e.1 == item.product.id then (e.1, addToGroup e.2 item) else e)).1 = e.1 := by
    intro e
    by_cases h : (e.1 == item.product.id) = true
    · simp [h]
    · rw [Bool.not_eq_true] at h
      simp [h]
  by_cases hmem : acc.any (fun e => e.1 == item.product.id) = true
  · rw [if_pos hmem, groupStep]
    simp only [hmem, if_pos, List.map_map]
    exact List.map_congr_left (fun e _ => hupd e)
  · rw [if_neg hmem, groupStep]
    simp only [hmem, Bool.false_eq_true, if_neg, not_false_iff, List.map_map,
      List.map_append]
    congr 1
    · exact List.map_congr_left (fun e _ => hupd e)
    · simp [hupd]

theorem nodup_keys_groupedByProduct (cart : List CartItem) :
    ((groupedByProduct cart).map Prod.fst).Nodup := by
  rw [groupedByProduct]
  have hgen : ∀ (c : List CartItem) (acc : List (String × GroupedProduct)),
      (acc.map Prod.fst).Nodup → ((c.foldl groupStep acc).map Prod.fst).Nodup := by
    intro c
    induction c with
    | nil => exact fun acc h => h
    | cons item rest ih =>
      intro acc hacc
      rw [List.foldl_cons]
      apply ih
      rw [keys_groupStep]
      by_cases hmem : acc.any (fun e => e.1 == item.product.id) = true
      · rw [if_pos hmem]
        exact hacc
      · rw [if_neg hmem]
        rw [List.nodup_append]
        refine ⟨hacc, List.nodup_singleton _, ?_⟩
        intro k hk
        simp only [List.mem_singleton]
        intro hkeq
        subst hkeq
        rcases List.mem_map.mp hk with ⟨e, he, hk1⟩
        apply hmem
        exact List.any_eq_true.mpr ⟨e, he, by simp [hk1]⟩
  exact hgen cart [] (by simp)

theorem discountFor_char (ps : List Product) (cart : List CartItem) (pid : String) :
    discountFor ps cart pid =
      match glookup (groupedByProduct cart) pid with
      | none => none
      | some g =>
        match findApplicableTier (productTiers ps pid) g.totalBarrelQuantity with
        | some t => some ⟨t.percentage, g.subtotal * t.percentage / 100⟩
        | none => none := by
  have hform : newDiscounts ps cart =
      (groupedByProduct cart).filterMap (fun e =>
        (match findApplicableTier (productTiers ps e.1) e.2.totalBarrelQuantity with
          | some t => some (⟨t.percentage, e.2.subtotal * t.percentage / 100⟩ : AutomaticDiscount)
          | none => none).map (fun d => (e.1, d))) := by
    rw [newDiscounts]
    apply List.filterMap_congr
    intro e _
    cases findApplicableTier (productTiers ps e.1) e.2.totalBarrelQuantity with
    | none => rfl
    | some t => rfl
  rw [discountFor, hform,
    find?_filterMap_keyed _ _ pid (nodup_keys_groupedByProduct cart)]
  rw [glookup]
  cases hfind : (groupedByProduct cart).find? (fun e => e.1 == pid) with
  | none => rfl
  | some e =>
    have he1 : e.1 = pid := by simpa using List.find?_some hfind
    simp only [Option.map_some', Option.some_bind, he1]

/-- C3: the derived automatic discount for a product pools every cart line
with that product id: the summed effective unit counts decide the applicable
tier, the amount is the pooled raw subtotal times the percentage over one
hundred, and the map carries an entry exactly when the product occurs in the
cart and a tier applies. -/
theorem C3_group_discount :
    ∀ (ps : List Product) (cart : List CartItem) (pid : String),
      ((∃ item ∈ cart, item.product.id = pid) →
        discountFor ps cart pid =
          (match findApplicableTier (productTiers ps pid) (pooledBarrelCount cart pid) with
           | some t =>
             some ⟨t.percentage, pooledSubtotal cart pid * t.percentage / 100⟩
           | none => none)) ∧
      ((∀ item ∈ cart, item.product.id ≠ pid) → discountFor ps cart pid = none) := by
  intro ps cart pid
  constructor
  · intro hex
    have hne : ¬ (glookup (groupedByProduct cart) pid = none) := by
      rw [glookup_grouped_none_iff]
      push_neg
      rcases hex with ⟨item, hitem, hid⟩
      exact ⟨item, hitem, hid⟩
    cases hg : glookup (groupedByProduct cart) pid with
    | none => exact absurd hg hne
    | some g =>
      rcases grouped_entry_spec cart pid g hg with ⟨hcount, hsub⟩
      rw [discountFor_char, hg]
      change (match findApplicableTier (productTiers ps pid) g.totalBarrelQuantity with
        | some t =>
          some (⟨t.percentage, g.subtotal * t.percentage / 100⟩ : AutomaticDiscount)
        | none => none) = _
      rw [hcount, hsub]
  · intro hall
    have hg : glookup (groupedByProduct cart) pid = none :=
      (glookup_grouped_none_iff cart pid).mpr hall
    rw [discountFor_char, hg]

/-- Witness for C3: two cerveza lines (a complete kit of quantity two and a
bare barrel) pool to three barrels and hit the ten-percent tier of the
catalog. -/
theorem C3_group_discount_witness :
    discountFor exProducts
        [⟨cerveza, kitCompletoCerveza, some 2, 1⟩, ⟨cerveza, soloBarrilCerveza, some 1, 2⟩]
        "cerveza" =
      (match findApplicableTier (productTiers exProducts "cerveza")
          (pooledBarrelCount
            [⟨cerveza, kitCompletoCerveza, some 2, 1⟩, ⟨cerveza, soloBarrilCerveza, some 1, 2⟩]
            "cerveza") with
       | some t =>
         some ⟨t.percentage,
           pooledSubtotal
             [⟨cerveza, kitCompletoCerveza, some 2, 1⟩, ⟨cerveza, soloBarrilCerveza, some 1, 2⟩]
             "cerveza" * t.percentage / 100⟩
       | none => none) :=
  (C3_group_discount exProducts
      [⟨cerveza, kitCompletoCerveza, some 2, 1⟩, ⟨cerveza, soloBarrilCerveza, some 1, 2⟩]
      "cerveza").1 ⟨⟨cerveza, kitCompletoCerveza, some 2, 1⟩, by simp, rfl⟩

/-! ### The combo auto-bundler: the greedy scan (C5) -/

theorem collectTokens_eq_none_iff (avail : List (String × List VToken))
    (consumed : List VToken) (req : List String) :
    collectTokens avail consumed req = none ↔
      ∃ comp ∈ req, findTokenFor avail consumed comp = none := by
  induction req with
  | nil => simp [collectTokens]
  | cons c cs ih =>
    rw [collectTokens]
    cases hc : findTokenFor avail consumed c with
    | none => simp [hc]
    | some t =>
      simp only [Option.map_eq_none', ih]
      constructor
      · intro ⟨comp, hm, hn⟩
        exact ⟨comp, List.mem_cons_of_mem c hm, hn⟩
      · intro ⟨comp, hm, hn⟩
        rcases List.mem_cons.mp hm with rfl | hm
        · rw [hc] at hn; cases hn
        · exact ⟨comp, hm, hn⟩

theorem comboLoop_added (avail : List (String × List VToken)) (cdef : Product)
    (ts : ℕ → ℕ) (fuel : ℕ) (st : BundlerState) :
    ∀ item ∈ (comboLoop avail cdef ts fuel st).combosToAdd,
      item ∈ st.combosToAdd ∨
        (item.quantity = some 1 ∧ item.product = cdef ∧
          comboKitOf cdef = some item.kit) := by
  induction fuel generalizing st with
  | zero => exact fun item h => Or.inl h
  | succ n ih =>
    intro item hitem
    rw [comboLoop] at hitem
    cases hcol : collectTokens avail st.consumed (cdef.comboComponents.getD []) with
    | none =>
      rw [hcol] at hitem
      exact Or.inl hitem
    | some found =>
      rw [hcol] at hitem
      rcases ih _ item hitem with hmem | hnew
      · cases hkit : comboKitOf cdef with
        | none =>
          rw [hkit] at hmem
          simp only [List.append_nil] at hmem
          exact Or.inl hmem
        | some ck =>
          rw [hkit] at hmem
          rcases List.mem_append.mp hmem with hmem | hmem
          · exact Or.inl hmem
          · rcases List.mem_singleton.mp hmem with rfl
            exact Or.inr ⟨rfl, rfl, by simp [hkit]⟩
      · exact Or.inr hnew

theorem runCombos_added (avail : List (String × List VToken)) (ts : ℕ → ℕ) :
    ∀ (combos : List Product) (st : BundlerState),
      ∀ item ∈ (runCombos avail ts combos st).combosToAdd,
        item ∈ st.combosToAdd ∨
          ∃ cdef ∈ combos, item.quantity = some 1 ∧ item.product = cdef ∧
            comboKitOf cdef = some item.kit := by
  intro combos
  induction combos with
  | nil => exact fun st item h => Or.inl h
  | cons c cs ih =>
    intro st item hitem
    rw [runCombos] at hitem
    rcases ih _ item hitem with hmem | ⟨cdef, hc, hrest⟩
    · rcases comboLoop_added avail c ts _ st item hmem with hmem | hnew
      · exact Or.inl hmem
      · exact Or.inr ⟨c, List.mem_cons_self c cs, hnew⟩
    · exact Or.inr ⟨cdef, List.mem_cons_of_mem c hc, hrest⟩

/-- Counterexample to C4 as stated: on a cart holding two separate
`kit-completo-cerveza` lines (reachable by hydrating the persisted cart) plus
two fernet complete kits, the pass bundles one Ruta 19 combo against the
*last* cerveza line only; the untouched first cerveza line then feeds a
second bundling pass, which rewrites the cart again and raises the change
notification again. -/
theorem C4_counterexample :
    (comboPass exProducts exFreshTs (comboPass exProducts exFreshTs exCartDup).1).2 = true ∧
      (comboPass exProducts exFreshTs (comboPass exProducts exFreshTs exCartDup).1).1 ≠
        (comboPass exProducts exFreshTs exCartDup).1 := by
  constructor
  · rfl
  · decide

theorem mapGet_mapSet (m : List (String × α)) (k k' : String) (v : α) :
    mapGet (mapSet m k v) k' = if k' = k then some v else mapGet m k' := by
  by_cases hmem : m.any (fun e => e.1 == k) = true
  · rw [mapSet, if_pos hmem, mapGet]
    have hk : ∀ e : String × α, ((if e.1 == k then (k, v) else e)).1 = e.1 := by
      intro e
      by_cases h : (e.1 == k) = true
      · have : e.1 = k := by simpa using h
        simp [h, this]
      · rw [Bool.not_eq_true] at h
        simp [h]
    rw [find?_map_keyEq (fun x => x == k') _ hk m]
    by_cases hkk : k' = k
    · subst hkk
      rcases List.any_eq_true.mp hmem with ⟨e, he, hek⟩
      have hfind : ∃ u, m.find? (fun e => e.1 == k') = some u := by
        rw [← Option.isSome_iff_exists, List.find?_isSome]
        exact ⟨e, he, hek⟩
      rcases hfind with ⟨u, hu⟩
      have huk : (u.1 == k') = true := by simpa using List.find?_some hu
      rw [hu, if_pos rfl]
      have hue : u.1 = k' := by simpa using huk
      simp [hue]
    · rw [if_neg hkk, mapGet]
      cases hfind : m.find? (fun e => e.1 == k') with
      | none => rfl
      | some u =>
        have huk : u.1 = k' := by simpa using List.find?_some hfind
        have hne : ¬ (u.1 = k) := by
          rw [huk]
          exact hkk
        simp [hne]
  · rw [mapSet, if_neg hmem, mapGet, List.find?_append]
    by_cases hkk : k' = k
    · subst hkk
      have hnone : m.find? (fun e => e.1 == k') = none := by
        rw [List.find?_eq_none]
        intro e he
        by_cases h : (e.1 == k') = true
        · exact absurd (List.any_eq_true.mpr ⟨e, he, h⟩) hmem
        · rw [Bool.not_eq_true] at h
          simp [h]
      rw [hnone, if_pos rfl]
      simp
    · rw [if_neg hkk, mapGet]
      cases hfind : m.find? (fun e => e.1 == k') with
      | none =>
        have hne : ((k : String) == k') = false := by
          simpa using fun hc => hkk hc.symm
        simp [hne]
      | some u => rfl

theorem mapGet_buildAvailableKits (cart : List CartItem) (pid : String) :
    mapGet (buildAvailableKits cart) pid =
      (cart.reverse.find? (fun i => poolLine i && (i.product.id == pid))).map lineTokens := by
  have hgen : ∀ (c : List CartItem) (m : List (String × List VToken)),
      mapGet (c.foldl (fun m item =>
        if poolLine item then mapSet m item.product.id (lineTokens item) else m) m) pid =
        match c.reverse.find? (fun i => poolLine i && (i.product.id == pid)) with
        | some l => some (lineTokens l)
        | none => mapGet m pid := by
    intro c
    induction c with
    | nil => intro m; rfl
    | cons item rest ih =>
      intro m
      rw [List.foldl_cons, ih]
      rw [List.reverse_cons, List.find?_append]
      cases hr : rest.reverse.find? (fun i => poolLine i && (i.product.id == pid)) with
      | some l => rfl
      | none =>
        simp only [Option.none_or]
        rw [List.find?_cons, List.find?_nil]
        by_cases hpl : poolLine item = true
        · rw [if_pos hpl]
          by_cases hid : (item.product.id == pid) = true
          · have h1 : (poolLine item && (item.product.id == pid)) = true := by
              rw [hpl, hid]
              rfl
            rw [h1]
            have hideq : item.product.id = pid := by simpa using hid
            rw [mapGet_mapSet, if_pos hideq.symm]
          · rw [Bool.not_eq_true] at hid
            have h1 : (poolLine item && (item.product.id == pid)) = false := by
              rw [hpl, hid]
              rfl
            rw [h1]
            have hidne : ¬ (pid = item.product.id) := by
              intro hc
              rw [hc] at hid
              simp at hid
            rw [mapGet_mapSet, if_neg hidne]
        · rw [Bool.not_eq_true] at hpl
          rw [hpl, if_neg Bool.false_ne_true, Bool.false_and]
  rw [buildAvailableKits, hgen]
  cases cart.reverse.find? (fun i => poolLine i && (i.product.id == pid)) with
  | some l => rfl
  | none => rfl

theorem mem_mapSet (m : List (String × α)) (k : String) (v : α) (e : String × α)
    (he : e ∈ mapSet m k v) : e ∈ m ∨ e = (k, v) := by
  rw [mapSet] at he
  by_cases hmem : m.any (fun x => x.1 == k) = true
  · rw [if_pos hmem] at he
    rcases List.mem_map.mp he with ⟨e', he', hupd⟩
    by_cases h : (e'.1 == k) = true
    · rw [if_pos h] at hupd
      exact Or.inr hupd.symm
    · rw [Bool.not_eq_true] at h
      rw [h] at hupd
      simp only [Bool.false_eq_true, if_neg, not_false_iff] at hupd
      exact Or.inl (hupd ▸ he')
  · rw [if_neg hmem] at he
    rcases List.mem_append.mp he with he | he
    · exact Or.inl he
    · exact Or.inr (List.mem_singleton.mp he)

theorem buildAvailableKits_entries (cart : List CartItem) :
    ∀ e ∈ buildAvailableKits cart,
      ∃ L ∈ cart, poolLine L = true ∧ e.1 = L.product.id ∧ e.2 = lineTokens L := by
  have hgen : ∀ (c : List CartItem) (m : List (String × List VToken)),
      ∀ e ∈ c.foldl (fun m item =>
          if poolLine item then mapSet m item.product.id (lineTokens item) else m) m,
        e ∈ m ∨ ∃ L ∈ c, poolLine L = true ∧ e.1 = L.product.id ∧ e.2 = lineTokens L := by
    intro c
    induction c with
    | nil => intro m e he; exact Or.inl he
    | cons item rest ih =>
      intro m e he
      rw [List.foldl_cons] at he
      rcases ih _ e he with hstep | ⟨L, hL, hrest⟩
      · by_cases hpl : poolLine item = true
        · rw [if_pos hpl] at hstep
          rcases mem_mapSet m item.product.id (lineTokens item) e hstep with hold | hnew
          · exact Or.inl hold
          · subst hnew
            exact Or.inr ⟨item, List.mem_cons_self item rest, hpl, rfl, rfl⟩
        · rw [Bool.not_eq_true] at hpl
          rw [hpl, if_neg Bool.false_ne_true] at hstep
          exact Or.inl hstep
      · exact Or.inr ⟨L, List.mem_cons_of_mem item hL, hrest⟩
  intro e he
  rcases hgen cart [] e he with hnil | hfound
  · exact absurd hnil (List.not_mem_nil e)
  · exact hfound

theorem findTokenFor_some_spec (avail : List (String × List VToken))
    (consumed : List VToken) (comp : String) (t : VToken)
    (h : findTokenFor avail consumed comp = some t) :
    t ∈ (mapGet avail comp).getD [] ∧ t ∉ consumed := by
  rw [findTokenFor] at h
  refine ⟨List.mem_of_find?_eq_some h, ?_⟩
  have h2 := List.find?_some h
  simp only [Bool.not_eq_true'] at h2
  intro hmem
  have h3 : consumed.contains t = true := List.elem_eq_true_of_mem hmem
  rw [h2] at h3
  cases h3

theorem mem_allTokens_of_pool (avail : List (String × List VToken)) (comp : String)
    (pool : List VToken) (hpool : mapGet avail comp = some pool) :
    ∀ t ∈ pool, t ∈ allTokens avail := by
  intro t ht
  rw [mapGet] at hpool
  cases hfind : avail.find? (fun e => e.1 == comp) with
  | none => rw [hfind] at hpool; cases hpool
  | some e =>
    rw [hfind] at hpool
    simp only [Option.map_some'] at hpool
    have hmem : e ∈ avail := List.mem_of_find?_eq_some hfind
    rw [allTokens, List.mem_flatten]
    refine ⟨e.2, List.mem_map.mpr ⟨e, hmem, rfl⟩, ?_⟩
    have he2 : e.2 = pool := by
      injection hpool
    rw [he2]
    exact ht

theorem lineTokens_ts (item : CartItem) : ∀ t ∈ lineTokens item, t.1 = item.timestamp := by
  intro t ht
  rcases List.mem_map.mp ht with ⟨i, _, rfl⟩
  rfl

theorem lineTokens_nodup (item : CartItem) : (lineTokens item).Nodup := by
  rw [lineTokens]
  apply List.Nodup.map
  · intro a b hab
    exact (Prod.mk.injEq _ _ _ _).mp hab |>.2
  · exact List.nodup_range _

theorem mem_addToken (s : List VToken) (t x : VToken) :
    x ∈ addToken s t ↔ x ∈ s ∨ x = t := by
  rw [addToken]
  by_cases h : s.contains t = true
  · have ht : t ∈ s := by simpa using h
    rw [if_pos h]
    constructor
    · exact Or.inl
    · intro hx
      rcases hx with hx | rfl
      · exact hx
      · exact ht
  · rw [if_neg h]
    simp

theorem mem_foldl_addToken (found : List VToken) (s : List VToken) (x : VToken) :
    x ∈ found.foldl addToken s ↔ x ∈ s ∨ x ∈ found := by
  induction found generalizing s with
  | nil => simp
  | cons t ts ih =>
    rw [List.foldl_cons, ih, mem_addToken]
    simp only [List.mem_cons]
    tauto

theorem nodup_addToken (s : List VToken) (t : VToken) (h : s.Nodup) :
    (addToken s t).Nodup := by
  rw [addToken]
  by_cases hc : s.contains t = true
  · rw [if_pos hc]
    exact h
  · rw [if_neg hc]
    have ht : t ∉ s := by
      intro hmem
      exact hc (by simpa using hmem)
    rw [List.nodup_append]
    refine ⟨h, List.nodup_singleton t, ?_⟩
    intro x hx hxt
    rw [List.mem_singleton] at hxt
    exact ht (hxt ▸ hx)

theorem nodup_foldl_addToken (found : List VToken) (s : List VToken) (h : s.Nodup) :
    (found.foldl addToken s).Nodup := by
  induction found generalizing s with
  | nil => exact h
  | cons t ts ih => exact ih _ (nodup_addToken s t h)

theorem collectTokens_found_spec (avail : List (String × List VToken))
    (consumed : List VToken) (req : List String) (found : List VToken)
    (h : collectTokens avail consumed req = some found) :
    ∀ t ∈ found, t ∈ allTokens avail ∧ t ∉ consumed := by
  induction req generalizing found with
  | nil =>
    rw [collectTokens] at h
    cases h
    intro t ht
    cases ht
  | cons c cs ih =>
    rw [collectTokens] at h
    cases hc : findTokenFor avail consumed c with
    | none => rw [hc] at h; cases h
    | some t0 =>
      rw [hc] at h
      cases hcs : collectTokens avail consumed cs with
      | none => rw [hcs] at h; cases h
      | some rest =>
        rw [hcs] at h
        simp only [Option.map_some'] at h
        cases h
        intro t ht
        rcases List.mem_cons.mp ht with rfl | ht
        · rcases findTokenFor_some_spec avail consumed c t hc with ⟨hpool, hnc⟩
          refine ⟨?_, hnc⟩
          cases hget : mapGet avail c with
          | none => rw [hget] at hpool; cases hpool
          | some pool =>
            rw [hget] at hpool
            exact mem_allTokens_of_pool avail c pool hget t hpool
        · exact ih rest hcs t ht

theorem findTokenFor_none_mono (avail : List (String × List VToken))
    (consumed consumed' : List VToken) (comp : String)
    (hsub : ∀ t, t ∈ consumed → t ∈ consumed')
    (h : findTokenFor avail consumed comp = none) :
    findTokenFor avail consumed' comp = none := by
  rw [findTokenFor, List.find?_eq_none] at h ⊢
  intro t ht
  have h1 := h t ht
  simp only [Bool.not_eq_true', Bool.not_eq_false] at h1 ⊢
  have : t ∈ consumed := by simpa using h1
  exact List.elem_eq_true_of_mem (hsub t this)

theorem collectTokens_none_mono (avail : List (String × List VToken))
    (consumed consumed' : List VToken) (req : List String)
    (hsub : ∀ t, t ∈ consumed → t ∈ consumed')
    (h : collectTokens avail consumed req = none) :
    collectTokens avail consumed' req = none := by
  rw [collectTokens_eq_none_iff] at h ⊢
  rcases h with ⟨comp, hm, hn⟩
  exact ⟨comp, hm, findTokenFor_none_mono avail consumed consumed' comp hsub hn⟩

theorem unconsumedCount_lt (avail : List (String × List VToken))
    (s s' : List VToken) (t0 : VToken)
    (hsub : ∀ t, t ∈ s → t ∈ s') (ht0a : t0 ∈ allTokens avail)
    (ht0n : t0 ∉ s) (ht0m : t0 ∈ s') :
    unconsumedCount avail s' < unconsumedCount avail s := by
  rw [unconsumedCount, unconsumedCount]
  have hsubl : List.Sublist ((allTokens avail).filter (fun t => !s'.contains t))
      ((allTokens avail).filter (fun t => !s.contains t)) := by
    apply List.monotone_filter_right
    intro t ht
    simp only [Bool.not_eq_true', Bool.not_eq_false] at ht ⊢
    by_cases hc : s.contains t = true
    · have hmem : t ∈ s := by simpa using hc
      have hc' : s'.contains t = true := List.elem_eq_true_of_mem (hsub t hmem)
      rw [hc'] at ht
      cases ht
    · simpa using hc
  rcases Nat.lt_or_ge (((allTokens avail).filter (fun t => !s'.contains t)).length)
      (((allTokens avail).filter (fun t => !s.contains t)).length) with hlt | hge
  · exact hlt
  · exfalso
    have hle := hsubl.length_le
    have hlen : ((allTokens avail).filter (fun t => !s'.contains t)).length =
        ((allTokens avail).filter (fun t => !s.contains t)).length := le_antisymm hle hge
    have heq := hsubl.eq_of_length hlen
    have hmem : t0 ∈ (allTokens avail).filter (fun t => !s.contains t) := by
      rw [List.mem_filter]
      refine ⟨ht0a, ?_⟩
      simp only [Bool.not_eq_true']
      by_cases hc : s.contains t0 = true
      · exact absurd (by simpa using hc) ht0n
      · simpa using hc
    rw [← heq, List.mem_filter] at hmem
    rcases hmem with ⟨_, hmem2⟩
    simp only [Bool.not_eq_true'] at hmem2
    have hc' : s'.contains t0 = true := List.elem_eq_true_of_mem ht0m
    rw [hc'] at hmem2
    cases hmem2

theorem findTokenFor_mem_allTokens (avail : List (String × List VToken))
    (consumed : List VToken) (comp : String) (t : VToken)
    (h : findTokenFor avail consumed comp = some t) : t ∈ allTokens avail := by
  rcases findTokenFor_some_spec avail consumed comp t h with ⟨hpool, _⟩
  cases hget : mapGet avail comp with
  | none =>
    rw [hget] at hpool
    cases hpool
  | some pool =>
    rw [hget] at hpool
    exact mem_allTokens_of_pool avail comp pool hget t hpool

theorem comboLoop_consumed_mono (avail : List (String × List VToken)) (cdef : Product)
    (ts : ℕ → ℕ) : ∀ (fuel : ℕ) (st : BundlerState),
    ∀ t ∈ st.consumed, t ∈ (comboLoop avail cdef ts fuel st).consumed := by
  intro fuel
  induction fuel with
  | zero => exact fun st t ht => ht
  | succ n ih =>
    intro st t ht
    rw [comboLoop]
    cases hcol : collectTokens avail st.consumed (cdef.comboComponents.getD []) with
    | none => exact ht
    | some found =>
      apply ih
      exact (mem_foldl_addToken found st.consumed t).mpr (Or.inl ht)

theorem comboLoop_consumed_sources (avail : List (String × List VToken)) (cdef : Product)
    (ts : ℕ → ℕ) : ∀ (fuel : ℕ) (st : BundlerState) (x : VToken),
    x ∈ (comboLoop avail cdef ts fuel st).consumed →
      x ∈ st.consumed ∨ x ∈ allTokens avail := by
  intro fuel
  induction fuel with
  | zero => exact fun st x hx => Or.inl hx
  | succ n ih =>
    intro st x hx
    rw [comboLoop] at hx
    cases hcol : collectTokens avail st.consumed (cdef.comboComponents.getD []) with
    | none =>
      rw [hcol] at hx
      exact Or.inl hx
    | some found =>
      rw [hcol] at hx
      rcases ih _ x hx with hmem | htok
      · rcases (mem_foldl_addToken found st.consumed x).mp hmem with hmem | hfound
        · exact Or.inl hmem
        · exact Or.inr ((collectTokens_found_spec avail st.consumed _ found hcol x hfound).1)
      · exact Or.inr htok

theorem comboLoop_consumed_nodup (avail : List (String × List VToken)) (cdef : Product)
    (ts : ℕ → ℕ) : ∀ (fuel : ℕ) (st : BundlerState),
    st.consumed.Nodup → (comboLoop avail cdef ts fuel st).consumed.Nodup := by
  intro fuel
  induction fuel with
  | zero => exact fun st h => h
  | succ n ih =>
    intro st h
    rw [comboLoop]
    cases hcol : collectTokens avail st.consumed (cdef.comboComponents.getD []) with
    | none => exact h
    | some found => exact ih _ (nodup_foldl_addToken found st.consumed h)

theorem comboLoop_exit (avail : List (String × List VToken)) (cdef : Product)
    (ts : ℕ → ℕ) (hreq : cdef.comboComponents.getD [] ≠ []) :
    ∀ (fuel : ℕ) (st : BundlerState),
      unconsumedCount avail st.consumed < fuel →
      collectTokens avail (comboLoop avail cdef ts fuel st).consumed
        (cdef.comboComponents.getD []) = none := by
  intro fuel
  induction fuel with
  | zero => intro st h; omega
  | succ n ih =>
    intro st hfuel
    rw [comboLoop]
    cases hcol : collectTokens avail st.consumed (cdef.comboComponents.getD []) with
    | none => exact hcol
    | some found =>
      apply ih
      cases hreqc : cdef.comboComponents.getD [] with
      | nil => exact absurd hreqc hreq
      | cons c cs =>
        rw [hreqc] at hcol
        rw [collectTokens] at hcol
        cases hft : findTokenFor avail st.consumed c with
        | none => rw [hft] at hcol; cases hcol
        | some t0 =>
          rw [hft] at hcol
          cases hcs : collectTokens avail st.consumed cs with
          | none => rw [hcs] at hcol; cases hcol
          | some rest =>
            rw [hcs] at hcol
            simp only [Option.map_some'] at hcol
            have hfound : found = t0 :: rest := (Option.some.inj hcol).symm
            have ht0a : t0 ∈ allTokens avail :=
              findTokenFor_mem_allTokens avail st.consumed c t0 hft
            have ht0n : t0 ∉ st.consumed :=
              (findTokenFor_some_spec avail st.consumed c t0 hft).2
            have ht0m : t0 ∈ found.foldl addToken st.consumed := by
              refine (mem_foldl_addToken found st.consumed t0).mpr (Or.inr ?_)
              rw [hfound]
              exact List.mem_cons_self t0 rest
            have hsub : ∀ t ∈ st.consumed, t ∈ found.foldl addToken st.consumed :=
              fun t ht => (mem_foldl_addToken found st.consumed t).mpr (Or.inl ht)
            have hlt := unconsumedCount_lt avail st.consumed
              (found.foldl addToken st.consumed) t0 hsub ht0a ht0n ht0m
            show unconsumedCount avail (found.foldl addToken st.consumed) < n
            omega

theorem runCombos_consumed_mono (avail : List (String × List VToken)) (ts : ℕ → ℕ) :
    ∀ (combos : List Product) (st : BundlerState),
      ∀ t ∈ st.consumed, t ∈ (runCombos avail ts combos st).consumed := by
  intro combos
  induction combos with
  | nil => exact fun st t ht => ht
  | cons c cs ih =>
    intro st t ht
    rw [runCombos]
    exact ih _ t (comboLoop_consumed_mono avail c ts _ st t ht)

theorem runCombos_consumed_sources (avail : List (String × List VToken)) (ts : ℕ → ℕ) :
    ∀ (combos : List Product) (st : BundlerState) (x : VToken),
      x ∈ (runCombos avail ts combos st).consumed →
        x ∈ st.consumed ∨ x ∈ allTokens avail := by
  intro combos
  induction combos with
  | nil => exact fun st x hx => Or.inl hx
  | cons c cs ih =>
    intro st x hx
    rw [runCombos] at hx
    rcases ih _ x hx with hmem | htok
    · exact comboLoop_consumed_sources avail c ts _ st x hmem
    · exact Or.inr htok

theorem runCombos_consumed_nodup (avail : List (String × List VToken)) (ts : ℕ → ℕ) :
    ∀ (combos : List Product) (st : BundlerState),
      st.consumed.Nodup → (runCombos avail ts combos st).consumed.Nodup := by
  intro combos
  induction combos with
  | nil => exact fun st h => h
  | cons c cs ih =>
    intro st h
    rw [runCombos]
    exact ih _ (comboLoop_consumed_nodup avail c ts _ st h)

theorem unconsumedCount_lt_fuel (avail : List (String × List VToken))
    (consumed : List VToken) : unconsumedCount avail consumed < totalTokens avail + 1 := by
  rw [unconsumedCount, totalTokens]
  have h1 : ((allTokens avail).filter (fun t => !consumed.contains t)).length ≤
      (allTokens avail).length := List.length_filter_le _ _
  have h2 : (allTokens avail).length = (avail.map (fun e => e.2.length)).sum := by
    rw [allTokens, List.length_flatten, List.map_map]
    rfl
  omega

theorem runCombos_all_fail (avail : List (String × List VToken)) (ts : ℕ → ℕ) :
    ∀ (combos : List Product) (st : BundlerState),
      (∀ c ∈ combos, c.comboComponents.getD [] ≠ []) →
      ∀ c ∈ combos,
        collectTokens avail (runCombos avail ts combos st).consumed
          (c.comboComponents.getD []) = none := by
  intro combos
  induction combos with
  | nil => intro st _ c hc; cases hc
  | cons c0 cs ih =>
    intro st hreq c hc
    rw [runCombos]
    rcases List.mem_cons.mp hc with rfl | hc
    · have hfail := comboLoop_exit avail c ts (hreq c (List.mem_cons_self c cs))
        (totalTokens avail + 1) st (unconsumedCount_lt_fuel avail st.consumed)
      exact collectTokens_none_mono avail _ _ _
        (fun t ht => runCombos_consumed_mono avail ts cs _ t ht) hfail
    · exact ih _ (fun c' hc' => hreq c' (List.mem_cons_of_mem c0 hc')) c hc

theorem comboLoop_ts_indep (avail : List (String × List VToken)) (cdef : Product)
    (ts ts' : ℕ → ℕ) : ∀ (fuel : ℕ) (st st' : BundlerState),
    st.consumed = st'.consumed →
    st.combosToAdd.map lineCore = st'.combosToAdd.map lineCore →
    (comboLoop avail cdef ts fuel st).consumed =
      (comboLoop avail cdef ts' fuel st').consumed ∧
    (comboLoop avail cdef ts fuel st).combosToAdd.map lineCore =
      (comboLoop avail cdef ts' fuel st').combosToAdd.map lineCore := by
  intro fuel
  induction fuel with
  | zero => exact fun st st' hc ha => ⟨hc, ha⟩
  | succ n ih =>
    intro st st' hc ha
    rw [comboLoop, comboLoop, ← hc]
    cases hcol : collectTokens avail st.consumed (cdef.comboComponents.getD []) with
    | none => exact ⟨hc, ha⟩
    | some found =>
      apply ih
      · rw [hc]
      · simp only [List.map_append, ha]
        cases comboKitOf cdef with
        | none => rfl
        | some ck => rfl

theorem runCombos_ts_indep (avail : List (String × List VToken)) (ts ts' : ℕ → ℕ) :
    ∀ (combos : List Product) (st st' : BundlerState),
      st.consumed = st'.consumed →
      st.combosToAdd.map lineCore = st'.combosToAdd.map lineCore →
      (runCombos avail ts combos st).consumed =
        (runCombos avail ts' combos st').consumed ∧
      (runCombos avail ts combos st).combosToAdd.map lineCore =
        (runCombos avail ts' combos st').combosToAdd.map lineCore := by
  intro combos
  induction combos with
  | nil => exact fun st st' hc ha => ⟨hc, ha⟩
  | cons c cs ih =>
    intro st st' hc ha
    rw [runCombos, runCombos]
    rcases comboLoop_ts_indep avail c ts ts' (totalTokens avail + 1) st st' hc ha with
      ⟨hc', ha'⟩
    exact ih _ _ hc' ha'

theorem runCombos_noop (avail : List (String × List VToken)) (ts : ℕ → ℕ) :
    ∀ combos : List Product,
      (∀ c ∈ combos, collectTokens avail [] (c.comboComponents.getD []) = none) →
      runCombos avail ts combos ⟨[], []⟩ = ⟨[], []⟩ := by
  intro combos
  induction combos with
  | nil => intro _; rfl
  | cons c cs ih =>
    intro hfail
    rw [runCombos]
    have hloop : comboLoop avail c ts (totalTokens avail + 1) ⟨[], []⟩ = ⟨[], []⟩ := by
      rw [comboLoop]
      have hf := hfail c (List.mem_cons_self c cs)
      rw [hf]
    rw [hloop]
    exact ih (fun c' hc' => hfail c' (List.mem_cons_of_mem c hc'))

theorem sortedCombos_comboFilter (ps : List Product) (c : Product)
    (hc : c ∈ sortedCombos ps) : comboFilter c = true := by
  have hmem : c ∈ ps.filter comboFilter :=
    (sortByB_perm comboGe (ps.filter comboFilter)).subset hc
  exact (List.mem_filter.mp hmem).2

theorem comboFilter_req_ne_nil (c : Product) (h : comboFilter c = true) :
    c.comboComponents.getD [] ≠ [] := by
  rw [comboFilter, Bool.and_eq_true] at h
  rcases h with ⟨_, hlen⟩
  simp only [decide_eq_true_eq] at hlen
  exact List.ne_nil_of_length_pos hlen

theorem comboFilter_type_combo (c : Product) (h : comboFilter c = true) :
    c.type = some PType.combo := by
  rw [comboFilter, Bool.and_eq_true] at h
  simpa using h.1

theorem poolLine_of_combo_false (i : CartItem) (h : i.product.type = some PType.combo) :
    poolLine i = false := by
  rw [poolLine, h]
  rfl

theorem reduceItem_product (consumed : List VToken) (item : CartItem) :
    (reduceItem consumed item).product = item.product := by
  rw [reduceItem]
  split
  · rfl
  · rfl

theorem reduceItem_kit (consumed : List VToken) (item : CartItem) :
    (reduceItem consumed item).kit = item.kit := by
  rw [reduceItem]
  split
  · rfl
  · rfl

theorem reduceItem_timestamp (consumed : List VToken) (item : CartItem) :
    (reduceItem consumed item).timestamp = item.timestamp := by
  rw [reduceItem]
  split
  · rfl
  · rfl

theorem poolLine_reduceItem (consumed : List VToken) (item : CartItem) :
    poolLine (reduceItem consumed item) = poolLine item := by
  rw [poolLine, poolLine, reduceItem_product, reduceItem_kit]

theorem mem_rebuildCart (cart : List CartItem) (st : BundlerState) (x : CartItem) :
    x ∈ rebuildCart cart st ↔
      ((∃ i ∈ cart, x = reduceItem st.consumed i ∧ keepItem x = true) ∨
        x ∈ st.combosToAdd) := by
  rw [rebuildCart, List.mem_append]
  constructor
  · intro h
    rcases h with h | h
    · rw [List.mem_filter] at h
      rcases h with ⟨hmap, hkeep⟩
      rcases List.mem_map.mp hmap with ⟨i, hi, rfl⟩
      exact Or.inl ⟨i, hi, rfl, hkeep⟩
    · exact Or.inr h
  · intro h
    rcases h with ⟨i, hi, rfl, hkeep⟩ | h
    · exact Or.inl (List.mem_filter.mpr ⟨List.mem_map.mpr ⟨i, hi, rfl⟩, hkeep⟩)
    · exact Or.inr h

theorem lineSig_eq_coreSig (i : CartItem) : lineSig i = coreSig (lineCore i) := rfl

theorem cartSignature_rebuild_ts (cart : List CartItem) (st st' : BundlerState)
    (hc : st.consumed = st'.consumed)
    (ha : st.combosToAdd.map lineCore = st'.combosToAdd.map lineCore) :
    cartSignature (rebuildCart cart st) = cartSignature (rebuildCart cart st') := by
  have hmap : (rebuildCart cart st).map lineSig = (rebuildCart cart st').map lineSig := by
    rw [rebuildCart, rebuildCart, hc, List.map_append, List.map_append]
    congr 1
    have h1 : ∀ l : List CartItem, l.map lineSig = (l.map lineCore).map coreSig := by
      intro l
      rw [List.map_map]
      rfl
    rw [h1, h1, ha]
  rw [cartSignature, cartSignature, hmap]

theorem second_run_pool_empty (cart : List CartItem)
    (h1 : (cart.map (fun i => i.timestamp)).Nodup)
    (h2 : ∀ a ∈ cart, ∀ b ∈ cart, poolLine a = true → poolLine b = true →
      a.product.id = b.product.id → a = b)
    (st : BundlerState)
    (hsub : ∀ t ∈ st.consumed, t ∈ allTokens (buildAvailableKits cart))
    (hnd : st.consumed.Nodup)
    (hcombo : ∀ item ∈ st.combosToAdd, item.product.type = some PType.combo)
    (comp : String)
    (hfail : findTokenFor (buildAvailableKits cart) st.consumed comp = none) :
    findTokenFor (buildAvailableKits (rebuildCart cart st)) [] comp = none := by
  suffices hnoline : ∀ i ∈ rebuildCart cart st,
      (poolLine i && (i.product.id == comp)) = false by
    have hfind : (rebuildCart cart st).reverse.find?
        (fun i => poolLine i && (i.product.id == comp)) = none := by
      rw [List.find?_eq_none]
      intro i hi
      rw [hnoline i (List.mem_reverse.mp hi)]
      exact Bool.false_ne_true
    rw [findTokenFor, mapGet_buildAvailableKits, hfind]
    rfl
  intro i hi
  rcases (mem_rebuildCart cart st i).mp hi with ⟨L0, hL0, rfl, hkeep⟩ | hcomboMem
  · rw [poolLine_reduceItem, reduceItem_product]
    by_cases hpl : poolLine L0 = true
    · by_cases hid : (L0.product.id == comp) = true
      · exfalso
        have hideq : L0.product.id = comp := by simpa using hid
        rw [findTokenFor] at hfail
        cases hget : mapGet (buildAvailableKits cart) comp with
        | none =>
          rw [mapGet_buildAvailableKits] at hget
          cases hfr : cart.reverse.find? (fun i => poolLine i && (i.product.id == comp)) with
          | some l => rw [hfr] at hget; cases hget
          | none =>
            rw [List.find?_eq_none] at hfr
            have := hfr L0 (List.mem_reverse.mpr hL0)
            rw [hpl, hid] at this
            exact this rfl
        | some pool =>
          have hgetr := hget
          rw [mapGet_buildAvailableKits] at hgetr
          cases hfr : cart.reverse.find?
              (fun i => poolLine i && (i.product.id == comp)) with
          | none => rw [hfr] at hgetr; cases hgetr
          | some L1 =>
            rw [hfr] at hgetr
            have hpool : pool = lineTokens L1 := by
              injection hgetr with h
              exact h.symm
            have hL1mem : L1 ∈ cart :=
              List.mem_reverse.mp (List.mem_of_find?_eq_some hfr)
            have hL1m := List.find?_some hfr
            rw [Bool.and_eq_true] at hL1m
            rcases hL1m with ⟨hL1pl, hL1id⟩
            have hL1ideq : L1.product.id = comp := by simpa using hL1id
            have hL01 : L0 = L1 :=
              h2 L0 hL0 L1 hL1mem hpl hL1pl (by rw [hideq, hL1ideq])
            subst hL01
            -- every token of the pool is consumed
            rw [hget] at hfail
            have hallcons : ∀ t ∈ pool, t ∈ st.consumed := by
              intro t ht
              rw [List.find?_eq_none] at hfail
              have := hfail t (by simpa using ht)
              simp only [Bool.not_eq_true', Bool.not_eq_false] at this
              simpa using this
            -- the consumed tokens carrying this line's timestamp are exactly
            -- the pool
            have htsinj : ∀ a ∈ cart, ∀ b ∈ cart, a.timestamp = b.timestamp → a = b :=
              fun a ha b hb hab => List.inj_on_of_nodup_map h1 ha hb hab
            have hfilter_sub : ∀ t ∈ st.consumed.filter (fun t => t.1 == L0.timestamp),
                t ∈ pool := by
              intro t ht
              rw [List.mem_filter] at ht
              rcases ht with ⟨htc, htts⟩
              have htts' : t.1 = L0.timestamp := by simpa using htts
              have hta := hsub t htc
              rw [allTokens, List.mem_flatten] at hta
              rcases hta with ⟨l, hl, htl⟩
              rcases List.mem_map.mp hl with ⟨e, he, rfl⟩
              rcases buildAvailableKits_entries cart e he with ⟨L2, hL2, hL2pl, _, hL2tok⟩
              rw [hL2tok] at htl
              have : t.1 = L2.timestamp := lineTokens_ts L2 t htl
              have hL20 : L2 = L0 := htsinj L2 hL2 L0 hL0 (by rw [← this, htts'])
              rw [hpool]
              rw [hL20] at htl
              exact htl
            have hpool_sub : ∀ t ∈ pool,
                t ∈ st.consumed.filter (fun t => t.1 == L0.timestamp) := by
              intro t ht
              rw [List.mem_filter]
              refine ⟨hallcons t ht, ?_⟩
              rw [hpool] at ht
              have := lineTokens_ts L0 t ht
              simpa using this
            -- hence the reduction count equals the pool size
            have hndf : (st.consumed.filter (fun t => t.1 == L0.timestamp)).Nodup :=
              hnd.filter _
            have hndp : pool.Nodup := by
              rw [hpool]
              exact lineTokens_nodup L0
            have hcount : consumedOriginalCount st.consumed L0.timestamp = pool.length := by
              rw [consumedOriginalCount]
              have hfin : (st.consumed.filter (fun t => t.1 == L0.timestamp)).toFinset =
                  pool.toFinset := by
                apply Finset.ext
                intro t
                rw [List.mem_toFinset, List.mem_toFinset]
                exact ⟨fun h => hfilter_sub t h, fun h => hpool_sub t h⟩
              have hc1 := List.toFinset_card_of_nodup hndf
              have hc2 := List.toFinset_card_of_nodup hndp
              rw [hfin] at hc1
              omega
            have hplen : pool.length = tokenCount L0.quantity := by
              rw [hpool, lineTokens, List.length_map, List.length_range]
            -- the reduced line cannot survive the quantity filter
            rw [keepItem] at hkeep
            cases hq : L0.quantity with
            | none =>
              rw [reduceItem] at hkeep
              by_cases hcz : consumedOriginalCount st.consumed L0.timestamp ≠ 0
              · rw [if_pos hcz] at hkeep
                simp only [hq, Option.map_none'] at hkeep
                cases hkeep
              · rw [if_neg hcz] at hkeep
                rw [hq] at hkeep
                cases hkeep
            | some n =>
              have htc : tokenCount L0.quantity = n.toNat := by rw [hq]; rfl
              by_cases hn : 0 < n
              · have hczero : consumedOriginalCount st.consumed L0.timestamp ≠ 0 := by
                  rw [hcount, hplen, htc]
                  omega
                rw [reduceItem, if_pos hczero] at hkeep
                simp only [hq, Option.map_some'] at hkeep
                have hval : n - (consumedOriginalCount st.consumed L0.timestamp : ℤ) = 0 := by
                  rw [hcount, hplen, htc]
                  omega
                rw [hval] at hkeep
                simp at hkeep
              · have hczero : ¬ consumedOriginalCount st.consumed L0.timestamp ≠ 0 := by
                  rw [hcount, hplen, htc]
                  omega
                rw [reduceItem, if_neg hczero] at hkeep
                rw [hq] at hkeep
                simp only [decide_eq_true_eq] at hkeep
                omega
      · rw [Bool.not_eq_true] at hid
        rw [hid, Bool.and_false]
    · rw [Bool.not_eq_true] at hpl
      rw [hpl, Bool.false_and]
  · rw [poolLine_of_combo_false i (hcombo i hcomboMem), Bool.false_and]

theorem comboPass_second_noop (ps : List Product) (ts1 ts2 : ℕ → ℕ)
    (cart : List CartItem)
    (h1 : (cart.map (fun i => i.timestamp)).Nodup)
    (h2 : ∀ a ∈ cart, ∀ b ∈ cart, poolLine a = true → poolLine b = true →
      a.product.id = b.product.id → a = b) :
    comboPass ps ts2
        (rebuildCart cart
          (runCombos (buildAvailableKits cart) ts1 (sortedCombos ps) ⟨[], []⟩)) =
      (rebuildCart cart
        (runCombos (buildAvailableKits cart) ts1 (sortedCombos ps) ⟨[], []⟩), false) := by
  rw [comboPass]
  by_cases hguard : (rebuildCart cart
      (runCombos (buildAvailableKits cart) ts1 (sortedCombos ps) ⟨[], []⟩)).length < 2 ∨
      ps.length = 0
  · rw [if_pos hguard]
  · rw [if_neg hguard]
    have hreq : ∀ c ∈ sortedCombos ps, c.comboComponents.getD [] ≠ [] :=
      fun c hc => comboFilter_req_ne_nil c (sortedCombos_comboFilter ps c hc)
    have hsub : ∀ t ∈ (runCombos (buildAvailableKits cart) ts1 (sortedCombos ps)
        ⟨[], []⟩).consumed, t ∈ allTokens (buildAvailableKits cart) := by
      intro t ht
      rcases runCombos_consumed_sources (buildAvailableKits cart) ts1 (sortedCombos ps)
          ⟨[], []⟩ t ht with h | h
      · cases h
      · exact h
    have hnd : (runCombos (buildAvailableKits cart) ts1 (sortedCombos ps)
        ⟨[], []⟩).consumed.Nodup :=
      runCombos_consumed_nodup (buildAvailableKits cart) ts1 (sortedCombos ps) ⟨[], []⟩
        List.nodup_nil
    have hcombo : ∀ item ∈ (runCombos (buildAvailableKits cart) ts1 (sortedCombos ps)
        ⟨[], []⟩).combosToAdd, item.product.type = some PType.combo := by
      intro item hitem
      rcases runCombos_added (buildAvailableKits cart) ts1 (sortedCombos ps) ⟨[], []⟩
          item hitem with h | ⟨cdef, hc, _, hp, _⟩
      · cases h
      · rw [hp]
        exact comboFilter_type_combo cdef (sortedCombos_comboFilter ps cdef hc)
    have hfailall : ∀ c ∈ sortedCombos ps,
        collectTokens (buildAvailableKits (rebuildCart cart
          (runCombos (buildAvailableKits cart) ts1 (sortedCombos ps) ⟨[], []⟩))) []
          (c.comboComponents.getD []) = none := by
      intro c hc
      have hA := runCombos_all_fail (buildAvailableKits cart) ts1 (sortedCombos ps)
        ⟨[], []⟩ hreq c hc
      rw [collectTokens_eq_none_iff] at hA ⊢
      rcases hA with ⟨comp, hcm, hcf⟩
      exact ⟨comp, hcm,
        second_run_pool_empty cart h1 h2 _ hsub hnd hcombo comp hcf⟩
    have hnoop : runCombos (buildAvailableKits (rebuildCart cart
        (runCombos (buildAvailableKits cart) ts1 (sortedCombos ps) ⟨[], []⟩))) ts2
        (sortedCombos ps) ⟨[], []⟩ = ⟨[], []⟩ :=
      runCombos_noop _ ts2 (sortedCombos ps) hfailall
    simp only [hnoop]
    simp

/-- C4 amended: on every cart whose line timestamps are pairwise distinct,
which holds at most one complete-kit individual line per product id, and
whose complete-kit lines each expand into at most one hundred tokens (the
domain on which the pair encoding of the source's float virtual timestamps
is exact — beyond it `i * 0.01` reaches `1.0` and consumed tokens alias into
the next millisecond, breaking the rebuild's bookkeeping), the auto-bundler
pass is idempotent: a second pass on the first pass's output leaves the cart
unchanged and raises no further change notification.  The counterexample
shows the uniqueness hypotheses are needed: a hydrated cart carrying two
lines of the same complete kit is re-bundled by the second pass. -/
theorem C4_bundler_idempotent_on_well_formed_carts :
    ∀ (ps : List Product) (ts1 ts2 : ℕ → ℕ) (cart : List CartItem),
      (cart.map (fun i => i.timestamp)).Nodup →
      (∀ a ∈ cart, ∀ b ∈ cart, poolLine a = true → poolLine b = true →
        a.product.id = b.product.id → a = b) →
      (∀ i ∈ cart, poolLine i = true → tokenCount i.quantity ≤ 100) →
      comboPass ps ts2 (comboPass ps ts1 cart).1 = ((comboPass ps ts1 cart).1, false) := by
  intro ps ts1 ts2 cart h1 h2 h3
  by_cases hguard : cart.length < 2 ∨ ps.length = 0
  · have hr1 : comboPass ps ts1 cart = (cart, false) := by
      rw [comboPass, if_pos hguard]
    rw [hr1]
    show comboPass ps ts2 cart = (cart, false)
    rw [comboPass, if_pos hguard]
  · by_cases hlen : 0 < (runCombos (buildAvailableKits cart) ts1 (sortedCombos ps)
        ⟨[], []⟩).combosToAdd.length
    · by_cases hsig : cartSignature cart ≠ cartSignature (rebuildCart cart
          (runCombos (buildAvailableKits cart) ts1 (sortedCombos ps) ⟨[], []⟩))
      · have hr1 : comboPass ps ts1 cart = (rebuildCart cart
            (runCombos (buildAvailableKits cart) ts1 (sortedCombos ps) ⟨[], []⟩), true) := by
          rw [comboPass, if_neg hguard, if_pos hlen, if_pos hsig]
        rw [hr1]
        exact comboPass_second_noop ps ts1 ts2 cart h1 h2
      · have hr1 : comboPass ps ts1 cart = (cart, false) := by
          rw [comboPass, if_neg hguard, if_pos hlen, if_neg hsig]
        rw [hr1]
        show comboPass ps ts2 cart = (cart, false)
        rcases runCombos_ts_indep (buildAvailableKits cart) ts2 ts1 (sortedCombos ps)
          ⟨[], []⟩ ⟨[], []⟩ rfl rfl with ⟨hc, ha⟩
        have hlen2 : 0 < (runCombos (buildAvailableKits cart) ts2 (sortedCombos ps)
            ⟨[], []⟩).combosToAdd.length := by
          have hl := congrArg List.length ha
          rw [List.length_map, List.length_map] at hl
          omega
        have hsig2 : cartSignature (rebuildCart cart
            (runCombos (buildAvailableKits cart) ts2 (sortedCombos ps) ⟨[], []⟩)) =
            cartSignature (rebuildCart cart
              (runCombos (buildAvailableKits cart) ts1 (sortedCombos ps) ⟨[], []⟩)) :=
          cartSignature_rebuild_ts cart _ _ hc ha
        rw [comboPass, if_neg hguard, if_pos hlen2, if_neg (by rw [hsig2]; exact hsig)]
    · have hr1 : comboPass ps ts1 cart = (cart, false) := by
        rw [comboPass, if_neg hguard, if_neg hlen]
      rw [hr1]
      show comboPass ps ts2 cart = (cart, false)
      rcases runCombos_ts_indep (buildAvailableKits cart) ts2 ts1 (sortedCombos ps)
        ⟨[], []⟩ ⟨[], []⟩ rfl rfl with ⟨_, ha⟩
      have hlen2 : ¬ 0 < (runCombos (buildAvailableKits cart) ts2 (sortedCombos ps)
          ⟨[], []⟩).combosToAdd.length := by
        have hl := congrArg List.length ha
        rw [List.length_map, List.length_map] at hl
        omega
      rw [comboPass, if_neg hguard, if_neg hlen2]

/-- Witness for the amended C4: a well-formed two-line cart (one cerveza and
one fernet complete-kit line, distinct products, distinct timestamps) on
which the first pass bundles a Ruta 19 combo and the second pass is a no-op. -/
theorem C4_bundler_idempotent_on_well_formed_carts_witness :
    comboPass exProducts exFreshTs
        (comboPass exProducts exFreshTs
          [⟨cerveza, kitCompletoCerveza, some 1, 1000⟩,
           ⟨fernet, kitCompletoFernet, some 2, 3000⟩]).1 =
      ((comboPass exProducts exFreshTs
        [⟨cerveza, kitCompletoCerveza, some 1, 1000⟩,
         ⟨fernet, kitCompletoFernet, some 2, 3000⟩]).1, false) :=
  C4_bundler_idempotent_on_well_formed_carts exProducts exFreshTs exFreshTs
    [⟨cerveza, kitCompletoCerveza, some 1, 1000⟩,
     ⟨fernet, kitCompletoFernet, some 2, 3000⟩]
    (by decide) (by decide) (by decide)

end BarrilesYA
